import Mathlib

/-!
Verification development for the monorepo version-synchronization engine
(`scripts/releases/set-version/index.js`): the manifest rewriter
`updatePackageJson` and the batch driver `setVersion`, together with models of
the two external collaborators (`getPackages`, `setReactNativeVersion`) that
live outside the verified sources.

JavaScript objects are embedded as association lists in insertion order
(`List (String × ·)`): property read returns the first binding, property
assignment overwrites the existing binding in place (keeping its position) or
appends a fresh binding at the end, exactly as JS property update behaves for
string keys. The `in` operator is modelled as own-property membership.
Mutation of a manifest object is modelled by returning the post-call object.
-/

namespace SetVersionSpec

/-- JSON-like values occurring in package manifests. -/
inductive JVal : Type where
  | str : String → JVal
  | num : Int → JVal
  | bool : Bool → JVal
  | null : JVal
  | obj : List (String × JVal) → JVal

/-- A JavaScript object (e.g. a parsed `package.json`), in insertion order. -/
abbrev JObj := List (String × JVal)

/-- A string-valued JavaScript object, e.g. the version-assignment mapping. -/
abbrev SMap := List (String × String)

/-- Property read: the value of the first binding of `k`.  -/
def assocGet {α : Type} : List (String × α) → String → Option α
  | [], _ => none
  | e :: rest, k => if e.1 = k then some e.2 else assocGet rest k

/-- Property assignment: overwrite the binding of `k` in place when present
(keeping its position), otherwise append a new binding at the end — the
semantics of `o[k] = v` on a JS object. -/
def assocSet {α : Type} : List (String × α) → String → α → List (String × α)
  | [], k, v => [(k, v)]
  | e :: rest, k, v => if e.1 = k then (k, v) :: rest else e :: assocSet rest k v

/-- The keys of an object, in order. -/
def keysList {α : Type} (l : List (String × α)) : List String := l.map Prod.fst

/-- `Object.fromEntries`: later entries overwrite earlier ones. -/
def fromEntries (l : List (String × String)) : SMap :=
  l.foldl (fun acc e => assocSet acc e.1 e.2) []

/-- `ToPropertyKey` for the values we model: the string a JS value turns into
when used as a property key (`undefined` for a missing value). -/
def jsKey : Option JVal → String
  | some (JVal.str s) => s
  | some (JVal.num n) => toString n
  | some (JVal.bool b) => if b then "true" else "false"
  | some JVal.null => "null"
  | some (JVal.obj _) => "[object Object]"
  | none => "undefined"

/-- JS truthiness of a property value (absent and `null` are falsy). -/
def jsTruthy : Option JVal → Bool
  | none => false
  | some JVal.null => false
  | some (JVal.bool b) => b
  | some (JVal.str s) => !(s == "")
  | some (JVal.num n) => !(n == 0)
  | some (JVal.obj _) => true

/-- `packageJson.name` coerced to a property key, as the source uses it. -/
def nameOf (m : JObj) : String := jsKey (assocGet m "name")

/-- Whether a manifest marks its package private (truthy `private` field). -/
def isPrivatePkg (m : JObj) : Bool := jsTruthy (assocGet m "private")

def spaces (n : Nat) : String := String.mk (List.replicate n ' ')

def escapeChar (c : Char) : String :=
  if c = '"' then "\\\""
  else if c = '\\' then "\\\\"
  else if c = '\n' then "\\n"
  else if c = '\r' then "\\r"
  else if c = '\t' then "\\t"
  else String.singleton c

def escapeString (s : String) : String := String.join (s.toList.map escapeChar)

def jquote (s : String) : String := "\"" ++ escapeString s ++ "\""

mutual

/-- `JSON.stringify(v, null, 2)` for a value starting on a line indented by
`ind` spaces. -/
def stringifyVal (ind : Nat) : JVal → String
  | JVal.str s => jquote s
  | JVal.num n => toString n
  | JVal.bool b => if b then "true" else "false"
  | JVal.null => "null"
  | JVal.obj [] => "\x7b\x7d"
  | JVal.obj (f :: fs) =>
      "\x7b\n" ++ stringifyFields (ind + 2) (f :: fs) ++ "\n" ++ spaces ind ++ "\x7d"

/-- The member lines of a non-empty object, each indented by `ind` spaces and
separated by `",\n"`. -/
def stringifyFields (ind : Nat) : List (String × JVal) → String
  | [] => ""
  | [f] => spaces ind ++ jquote f.1 ++ ": " ++ stringifyVal ind f.2
  | f :: g :: fs =>
      spaces ind ++ jquote f.1 ++ ": " ++ stringifyVal ind f.2 ++ ",\n" ++
        stringifyFields ind (g :: fs)

end

/-- One pass of `for (const dependency in newPackageVersions) if (dependency in
deps) deps[dependency] = newPackageVersions[dependency]`, iterating the mapping
in insertion order. -/
def updateDeps : JObj → SMap → JObj
  | deps, [] => deps
  | deps, e :: rest =>
      updateDeps
        (if (assocGet deps e.1).isSome then assocSet deps e.1 (JVal.str e.2) else deps)
        rest

/-- One iteration of the dependency-field loop of `updatePackageJson` for field
name `fieldName`: skip when the field is absent or `null`; rewrite matching
entries when it is an object; a primitive field makes the JS `in` operator throw
a `TypeError` as soon as the mapping has at least one key. -/
def updateField (pj : JObj) (fieldName : String) (nv : SMap) : Except String JObj :=
  match assocGet pj fieldName with
  | none => Except.ok pj
  | some JVal.null => Except.ok pj
  | some (JVal.obj deps) =>
      Except.ok (assocSet pj fieldName (JVal.obj (updateDeps deps nv)))
  | some _ =>
      if nv.isEmpty then Except.ok pj
      else Except.error ("TypeError: cannot use in operator on " ++ fieldName)

/-- Embedding of `updatePackageJson(packagePath, packageJson, newPackageVersions)`.
The source mutates `packageJson` in place (no copy is taken); the embedding
returns the caller's object as it stands after the call, paired with the string
written to `<packagePath>/package.json`, namely
`JSON.stringify(packageJson, null, 2) + "\n"`.  The only failure the function
itself can produce is the `TypeError` from using `in` on a primitive dependency
field. -/
def updatePackageJson (packageJson : JObj) (newPackageVersions : SMap) :
    Except String (JObj × String) :=
  match updateField
      (match assocGet newPackageVersions (nameOf packageJson) with
        | some v => assocSet packageJson "version" (JVal.str v)
        | none => packageJson)
      "dependencies" newPackageVersions with
  | Except.error e => Except.error e
  | Except.ok pj2 =>
      match updateField pj2 "devDependencies" newPackageVersions with
      | Except.error e => Except.error e
      | Except.ok pj3 => Except.ok (pj3, stringifyVal 0 (JVal.obj pj3) ++ "\n")

/-- The version-assignment step of `updatePackageJson`:
`if (packageName in newPackageVersions) packageJson.version = newPackageVersions[packageName]`. -/
def versionBump (m : JObj) (nv : SMap) : JObj :=
  match assocGet nv (nameOf m) with
  | some v => assocSet m "version" (JVal.str v)
  | none => m

/-- A registry entry: package name, filesystem path (package directory), and
parsed `package.json`. -/
structure PackageEntry where
  name : String
  path : String
  packageJson : JObj

/-- The filesystem state the engine touches: the parsed `package.json` of each
package directory (path → manifest, in enumeration order), plus an opaque blob
standing for the distinguished package's native/template artifacts.  Manifests
are stored parsed; a successful rewrite stores the mutated manifest, whose
serialization is exactly the string written (round-trip fidelity, spec §9). -/
structure Disk where
  manifests : List (String × JObj)
  nativeArtifacts : String

/-- Modelled from the spec: the package registry collaborator (`getPackages`
from `scripts/utils/monorepo`, which is not under the verified sources).  Per
spec §2/§6 it enumerates the packages of the tree in order and returns, for
each, its filesystem location and parsed manifest keyed by package name,
filtering out private packages unless `includePrivate` and the distinguished
`react-native` package unless `includeReactNative`. -/
def getPackages (includePrivate : Bool) (includeReactNative : Bool)
    (manifests : List (String × JObj)) : List PackageEntry :=
  (manifests.filter (fun pm =>
      (includePrivate || !(isPrivatePkg pm.2)) &&
      (includeReactNative || !(nameOf pm.2 == "react-native")))).map
    (fun pm => ⟨nameOf pm.2, pm.1, pm.2⟩)

/-- The fixed directory of the distinguished package. -/
def rnManifestPath : String := "packages/react-native"

/-- Modelled from the spec: the platform version setter collaborator
(`setReactNativeVersion` from `scripts/releases/set-rn-version`, which is not
under the verified sources).  Per spec §6 it owns the distinguished package's
manifest and native/template artifacts and writes them as a function of the
resolved version and the full mapping; those two write outcomes are abstracted
by the parameters `psManifest` and `psNative`. -/
def setReactNativeVersion (psManifest : String → SMap → JObj)
    (psNative : String → SMap → String) (version : String)
    (newPackageVersions : SMap) (disk : Disk) : Disk :=
  ⟨assocSet disk.manifests rnManifestPath (psManifest version newPackageVersions),
    psNative version newPackageVersions⟩

/-- `Object.fromEntries(Object.keys(packages).map(packageName => [packageName, version]))`. -/
def newPackageVersionsOf (packages : List PackageEntry) (version : String) : SMap :=
  fromEntries (packages.map (fun p => (p.name, version)))

/-- `Object.values(packages).filter(pkg => pkg.name !== 'react-native')`. -/
def packagesToUpdateOf (packages : List PackageEntry) : List PackageEntry :=
  packages.filter (fun p => !(p.name == "react-native"))

/-- The batch of manifest writes dispatched by `Promise.all`: each package's
rewrite uses the manifest read at registry time, and a successful rewrite
overwrites that package's file; a failed one leaves it untouched.  The writes
touch pairwise distinct files, so folding them in order models the concurrent
fan-out faithfully. -/
def rewriteAll (nv : SMap) : List (String × JObj) → List PackageEntry → List (String × JObj)
  | ms, [] => ms
  | ms, p :: rest =>
      match updatePackageJson p.packageJson nv with
      | Except.ok mc => rewriteAll nv (assocSet ms p.path mc.1) rest
      | Except.error _ => rewriteAll nv ms rest

/-- The manifest a rewrite leaves on disk for a package: the mutated manifest
on success, the previous one on failure. -/
def rewriteOne (nv : SMap) (m : JObj) : JObj :=
  match updatePackageJson m nv with
  | Except.ok mc => mc.1
  | Except.error _ => m

/-- The version-assignment mapping a `setVersion` run computes from a disk
state: every public package name (the distinguished one included) mapped to the
requested version. -/
def runMapping (ms : List (String × JObj)) (version : String) : SMap :=
  newPackageVersionsOf (getPackages false true ms) version

/-- The manifests on disk after one full `setVersion` run: first the platform
setter writes the distinguished manifest, then every other public package is
rewritten.  `pv` is the version argument resolved for the platform setter. -/
def runManifests (psManifest : String → SMap → JObj) (version pv : String)
    (ms : List (String × JObj)) : List (String × JObj) :=
  rewriteAll (runMapping ms version)
    (assocSet ms rnManifestPath (psManifest pv (runMapping ms version)))
    (packagesToUpdateOf (getPackages false true ms))

/-- Observable outcome of one `setVersion` run: the final filesystem state, the
two arguments handed to the platform setter, and the packages dispatched to the
manifest rewriter. -/
structure RunResult where
  disk : Disk
  platformVersionArg : String
  platformMappingArg : SMap
  updatedPackages : List PackageEntry

/-- Embedding of `setVersion(version, skipReactNativeVersion)` over a disk
state, parametrized by the platform setter's write outcomes. -/
def setVersion (psManifest : String → SMap → JObj) (psNative : String → SMap → String)
    (version : String) (skipReactNativeVersion : Bool) (disk : Disk) : RunResult :=
  let packages := getPackages false true disk.manifests
  let nv := newPackageVersionsOf packages version
  let pv := if skipReactNativeVersion then "1000.0.0" else version
  let disk1 := setReactNativeVersion psManifest psNative pv nv disk
  let toUpdate := packagesToUpdateOf packages
  ⟨⟨rewriteAll nv disk1.manifests toUpdate, disk1.nativeArtifacts⟩, pv, nv, toUpdate⟩

/-! ### Concrete sample data (used to evaluate the development on closed inputs) -/

/-- A platform-setter outcome writing a well-formed distinguished manifest. -/
def samplePsManifest : String → SMap → JObj := fun w _ =>
  [("name", JVal.str "react-native"), ("version", JVal.str w)]

/-- A platform-setter outcome for the native artifacts. -/
def samplePsNative : String → SMap → String := fun w _ => w

def rnSampleManifest : JObj :=
  [("name", JVal.str "react-native"), ("version", JVal.str "1000.0.0")]

def pkgASampleManifest : JObj :=
  [("name", JVal.str "pkg-a"), ("version", JVal.str "0.1.0"),
    ("dependencies", JVal.obj [("react-native", JVal.str "1000.0.0")])]

def sampleDisk : Disk :=
  ⟨[("packages/react-native", rnSampleManifest), ("packages/pkg-a", pkgASampleManifest)],
    "native-sources"⟩

def coreManifest : JObj :=
  [("name", JVal.str "core"), ("version", JVal.str "0.1.0"),
    ("devDependencies", JVal.obj
      [("tool-a", JVal.str "0.1.0"), ("left-pad", JVal.str "9.9.9")])]

def coreMapping : SMap := [("core", "0.2.0"), ("tool-a", "0.2.0")]

def coreManifestAfter : JObj :=
  [("name", JVal.str "core"), ("version", JVal.str "0.2.0"),
    ("devDependencies", JVal.obj
      [("tool-a", JVal.str "0.2.0"), ("left-pad", JVal.str "9.9.9")])]

def noopManifest : JObj :=
  [("name", JVal.str "pkg-a"), ("version", JVal.str "0.2.0"),
    ("dependencies", JVal.obj [("x", JVal.str "0.2.0")])]

def noopMapping : SMap := [("pkg-a", "0.2.0"), ("x", "0.2.0")]

def noNameManifest : JObj :=
  [("version", JVal.str "1.0.0"), ("dependencies", JVal.obj [("a", JVal.str "0.0.1")])]

def noNameMapping : SMap := [("a", "2.0.0")]

def mutManifest : JObj := [("name", JVal.str "pkg-a"), ("version", JVal.str "1.0.0")]

def mutMapping : SMap := [("pkg-a", "2.0.0")]

def mutManifestAfter : JObj := [("name", JVal.str "pkg-a"), ("version", JVal.str "2.0.0")]

def absentDepsManifest : JObj := [("name", JVal.str "pkg-a")]

/-! ### Association-list lemmas -/

theorem assocGet_cons {α : Type} (e : String × α) (rest : List (String × α)) (k : String) :
    assocGet (e :: rest) k = if e.1 = k then some e.2 else assocGet rest k := rfl

theorem assocSet_cons {α : Type} (e : String × α) (rest : List (String × α)) (k : String)
    (v : α) : assocSet (e :: rest) k v =
      if e.1 = k then (k, v) :: rest else e :: assocSet rest k v := rfl

theorem assocGet_set_self {α : Type} (ms : List (String × α)) (k : String) (v : α) :
    assocGet (assocSet ms k v) k = some v := by
  induction ms with
  | nil => simp [assocGet, assocSet]
  | cons e rest ih =>
      rw [assocSet_cons]
      by_cases h : e.1 = k
      · rw [if_pos h, assocGet_cons, if_pos rfl]
      · rw [if_neg h, assocGet_cons, if_neg h, ih]

theorem assocGet_set_ne {α : Type} (ms : List (String × α)) (k k' : String) (v : α)
    (h : ¬k' = k) : assocGet (assocSet ms k v) k' = assocGet ms k' := by
  have h' : ¬k = k' := fun hh => h hh.symm
  induction ms with
  | nil => simp [assocGet, assocSet, h']
  | cons e rest ih =>
      rw [assocSet_cons]
      by_cases he : e.1 = k
      · rw [if_pos he, assocGet_cons, assocGet_cons, if_neg h']
        have : ¬e.1 = k' := he ▸ h'
        rw [if_neg this]
      · rw [if_neg he, assocGet_cons, assocGet_cons, ih]

theorem assocSet_of_get_eq {α : Type} {ms : List (String × α)} {k : String} {v : α}
    (h : assocGet ms k = some v) : assocSet ms k v = ms := by
  induction ms with
  | nil => simp [assocGet] at h
  | cons e rest ih =>
      rw [assocGet_cons] at h
      rw [assocSet_cons]
      by_cases he : e.1 = k
      · rw [if_pos he] at h
        rw [if_pos he]
        have hv : v = e.2 := (Option.some.inj h).symm
        rw [hv, ← he]
      · rw [if_neg he] at h
        rw [if_neg he, ih h]

theorem keysList_nil {α : Type} : keysList ([] : List (String × α)) = [] := rfl

theorem keysList_cons {α : Type} (e : String × α) (rest : List (String × α)) :
    keysList (e :: rest) = e.1 :: keysList rest := rfl

theorem keysList_assocSet {α : Type} (ms : List (String × α)) (k : String) (v : α) :
    keysList (assocSet ms k v) =
      if (assocGet ms k).isSome then keysList ms else keysList ms ++ [k] := by
  induction ms with
  | nil => simp [assocGet, assocSet, keysList]
  | cons e rest ih =>
      rw [assocSet_cons, assocGet_cons]
      by_cases he : e.1 = k
      · rw [if_pos he, if_pos he]
        simp [keysList_cons, he]
      · rw [if_neg he, if_neg he, keysList_cons, keysList_cons, ih]
        by_cases hs : (assocGet rest k).isSome
        · rw [if_pos hs, if_pos hs]
        · rw [if_neg hs, if_neg hs, List.cons_append]

theorem mem_keysList_iff_isSome {α : Type} (ms : List (String × α)) (k : String) :
    k ∈ keysList ms ↔ (assocGet ms k).isSome = true := by
  induction ms with
  | nil => simp [assocGet, keysList]
  | cons e rest ih =>
      rw [keysList_cons, assocGet_cons, List.mem_cons]
      by_cases he : e.1 = k
      · simp [he]
      · have he' : ¬k = e.1 := fun hh => he hh.symm
        simp [he, he', ih]

theorem assocGet_mem {α : Type} {ms : List (String × α)} {k : String} {v : α}
    (h : assocGet ms k = some v) : (k, v) ∈ ms := by
  induction ms with
  | nil => simp [assocGet] at h
  | cons e rest ih =>
      rw [assocGet_cons] at h
      by_cases he : e.1 = k
      · rw [if_pos he] at h
        have hv : e.2 = v := Option.some.inj h
        have : (k, v) = e := by
          rw [← he, ← hv]
        rw [this]
        exact List.mem_cons_self _ _
      · rw [if_neg he] at h
        exact List.mem_cons_of_mem _ (ih h)

theorem mem_assocSet_of_ne {α : Type} {ms : List (String × α)} {q k : String} {a : α} (v : α)
    (h : (q, a) ∈ ms) (hne : ¬q = k) : (q, a) ∈ assocSet ms k v := by
  induction ms with
  | nil => simp at h
  | cons e rest ih =>
      rw [assocSet_cons]
      rcases List.mem_cons.mp h with h1 | h1
      · have he : ¬e.1 = k := by
          rw [← h1]
          exact hne
        rw [if_neg he]
        exact h1 ▸ List.mem_cons_self _ _
      · by_cases he : e.1 = k
        · rw [if_pos he]
          exact List.mem_cons_of_mem _ h1
        · rw [if_neg he]
          exact List.mem_cons_of_mem _ (ih h1)

theorem mem_assocSet_elim {α : Type} {ms : List (String × α)} {k : String} {v : α}
    {e : String × α} (h : e ∈ assocSet ms k v) : e ∈ ms ∨ e = (k, v) := by
  induction ms with
  | nil =>
      simp [assocSet] at h
      exact Or.inr h
  | cons f rest ih =>
      rw [assocSet_cons] at h
      by_cases hf : f.1 = k
      · rw [if_pos hf] at h
        rcases List.mem_cons.mp h with h1 | h1
        · exact Or.inr h1
        · exact Or.inl (List.mem_cons_of_mem _ h1)
      · rw [if_neg hf] at h
        rcases List.mem_cons.mp h with h1 | h1
        · exact Or.inl (h1 ▸ List.mem_cons_self _ _)
        · rcases ih h1 with h2 | h2
          · exact Or.inl (List.mem_cons_of_mem _ h2)
          · exact Or.inr h2

theorem assocGet_eq_of_mem_nodup {α : Type} {ms : List (String × α)} {k : String} {v : α}
    (hnd : (keysList ms).Nodup) (h : (k, v) ∈ ms) : assocGet ms k = some v := by
  induction ms with
  | nil => simp at h
  | cons e rest ih =>
      rw [keysList_cons, List.nodup_cons] at hnd
      rw [assocGet_cons]
      rcases List.mem_cons.mp h with h1 | h1
      · rw [← h1]
        simp
      · have hk : k ∈ keysList rest := List.mem_map.mpr ⟨(k, v), h1, rfl⟩
        have he : ¬e.1 = k := fun hh => hnd.1 (hh ▸ hk)
        rw [if_neg he]
        exact ih hnd.2 h1

theorem assocGet_map {α β : Type} (h : String → α → β) (ms : List (String × α)) (k : String) :
    assocGet (ms.map (fun e => (e.1, h e.1 e.2))) k = (assocGet ms k).map (h k) := by
  induction ms with
  | nil => simp [assocGet]
  | cons e rest ih =>
      simp only [List.map_cons, assocGet_cons]
      by_cases he : e.1 = k
      · subst he
        simp
      · simp [he, ih]

theorem assocExt {α : Type} {ms1 ms2 : List (String × α)}
    (hk : keysList ms1 = keysList ms2) (hnd : (keysList ms1).Nodup)
    (h : ∀ k, assocGet ms1 k = assocGet ms2 k) : ms1 = ms2 := by
  induction ms1 generalizing ms2 with
  | nil =>
      cases ms2 with
      | nil => rfl
      | cons f r2 => simp [keysList] at hk
  | cons e r1 ih =>
      cases ms2 with
      | nil => simp [keysList] at hk
      | cons f r2 =>
          rw [keysList_cons, keysList_cons] at hk
          have hk1 : e.1 = f.1 := (List.cons.injEq _ _ _ _ ▸ hk).1
          have hk2 : keysList r1 = keysList r2 := (List.cons.injEq _ _ _ _ ▸ hk).2
          rw [keysList_cons, List.nodup_cons] at hnd
          have hval : e.2 = f.2 := by
            have hh := h e.1
            rw [assocGet_cons, if_pos rfl, assocGet_cons, if_pos hk1.symm] at hh
            exact Option.some.inj hh
          have hef : e = f := Prod.ext hk1 hval
          have hrest : ∀ k, assocGet r1 k = assocGet r2 k := by
            intro k
            by_cases hke : e.1 = k
            · have h1 : assocGet r1 k = none := by
                rw [← Option.not_isSome_iff_eq_none]
                intro hs
                exact hnd.1 (hke ▸ (mem_keysList_iff_isSome r1 k).mpr hs)
              have h2 : assocGet r2 k = none := by
                rw [← Option.not_isSome_iff_eq_none]
                intro hs
                have hm : k ∈ keysList r1 := by
                  rw [hk2]
                  exact (mem_keysList_iff_isSome r2 k).mpr hs
                exact hnd.1 (hke ▸ hm)
              rw [h1, h2]
            · have hh := h k
              rw [assocGet_cons, if_neg hke, assocGet_cons, if_neg (hk1 ▸ hke)] at hh
              exact hh
          rw [hef, ih hk2 hnd.2 hrest]

theorem keysList_nodup_assocSet {α : Type} {ms : List (String × α)} (k : String) (v : α)
    (hnd : (keysList ms).Nodup) : (keysList (assocSet ms k v)).Nodup := by
  rw [keysList_assocSet]
  by_cases hs : (assocGet ms k).isSome
  · rw [if_pos hs]
    exact hnd
  · rw [if_neg hs]
    have hk : ¬k ∈ keysList ms := by
      rw [mem_keysList_iff_isSome]
      simp [hs]
    simp [List.nodup_append, hnd, hk]

/-! ### `fromEntries` lemmas -/

theorem foldl_assocSet_mem {l : List (String × String)} :
    ∀ {acc : SMap} {e : String × String},
      e ∈ l.foldl (fun a p => assocSet a p.1 p.2) acc → e ∈ acc ∨ e ∈ l := by
  induction l with
  | nil =>
      intro acc e h
      exact Or.inl h
  | cons p l ih =>
      intro acc e h
      rcases ih h with h1 | h1
      · rcases mem_assocSet_elim h1 with h2 | h2
        · exact Or.inl h2
        · exact Or.inr (List.mem_cons_self _ _ |> fun hm => h2 ▸ hm)
      · exact Or.inr (List.mem_cons_of_mem _ h1)

theorem fromEntries_mem_sub {l : List (String × String)} {e : String × String}
    (h : e ∈ fromEntries l) : e ∈ l := by
  rcases foldl_assocSet_mem h with h1 | h1
  · simp at h1
  · exact h1

theorem mem_keysList_assocSet_of_mem {α : Type} {ms : List (String × α)} {k : String}
    (k' : String) (v : α) (h : k ∈ keysList ms) : k ∈ keysList (assocSet ms k' v) := by
  rw [keysList_assocSet]
  by_cases hs : (assocGet ms k').isSome
  · rw [if_pos hs]
    exact h
  · rw [if_neg hs]
    exact List.mem_append_left _ h

theorem mem_keysList_assocSet_self {α : Type} (ms : List (String × α)) (k : String) (v : α) :
    k ∈ keysList (assocSet ms k v) := by
  rw [keysList_assocSet]
  by_cases hs : (assocGet ms k).isSome
  · rw [if_pos hs]
    exact (mem_keysList_iff_isSome ms k).mpr hs
  · rw [if_neg hs]
    exact List.mem_append_right _ (List.mem_singleton.mpr rfl)

theorem foldl_assocSet_keys {l : List (String × String)} {k : String} :
    ∀ {acc : SMap}, (k ∈ keysList acc ∨ k ∈ l.map Prod.fst) →
      k ∈ keysList (l.foldl (fun a p => assocSet a p.1 p.2) acc) := by
  induction l with
  | nil =>
      intro acc h
      rcases h with h | h
      · exact h
      · simp at h
  | cons p l ih =>
      intro acc h
      rcases h with h | h
      · exact ih (Or.inl (mem_keysList_assocSet_of_mem _ _ h))
      · rw [List.map_cons, List.mem_cons] at h
        rcases h with h | h
        · exact ih (Or.inl (h ▸ mem_keysList_assocSet_self acc p.1 p.2))
        · exact ih (Or.inr h)

theorem fromEntries_mem_keys {l : List (String × String)} {k : String}
    (h : k ∈ l.map Prod.fst) : k ∈ keysList (fromEntries l) :=
  foldl_assocSet_keys (Or.inr h)

theorem foldl_assocSet_nodup {l : List (String × String)} :
    ∀ {acc : SMap}, (keysList acc).Nodup →
      (keysList (l.foldl (fun a p => assocSet a p.1 p.2) acc)).Nodup := by
  induction l with
  | nil =>
      intro acc h
      exact h
  | cons p l ih =>
      intro acc h
      exact ih (keysList_nodup_assocSet _ _ h)

theorem fromEntries_nodup (l : List (String × String)) :
    (keysList (fromEntries l)).Nodup :=
  foldl_assocSet_nodup (by simp [keysList])

theorem fromEntries_get_mem {l : List (String × String)} {k v : String}
    (h : assocGet (fromEntries l) k = some v) : (k, v) ∈ l :=
  fromEntries_mem_sub (assocGet_mem h)

/-! ### `updateDeps` lemmas -/

theorem updateDeps_nil (deps : JObj) : updateDeps deps [] = deps := rfl

theorem updateDeps_cons (deps : JObj) (e : String × String) (rest : SMap) :
    updateDeps deps (e :: rest) =
      updateDeps
        (if (assocGet deps e.1).isSome then assocSet deps e.1 (JVal.str e.2) else deps)
        rest := rfl

theorem updateDeps_keysList (nv : SMap) : ∀ deps : JObj,
    keysList (updateDeps deps nv) = keysList deps := by
  induction nv with
  | nil =>
      intro deps
      rfl
  | cons e rest ih =>
      intro deps
      rw [updateDeps_cons]
      by_cases hs : (assocGet deps e.1).isSome
      · rw [if_pos hs, ih, keysList_assocSet, if_pos hs]
      · rw [if_neg hs, ih]

theorem updateDeps_isSome (nv : SMap) (deps : JObj) (k : String) :
    (assocGet (updateDeps deps nv) k).isSome = (assocGet deps k).isSome := by
  rw [Bool.eq_iff_iff, ← mem_keysList_iff_isSome, ← mem_keysList_iff_isSome,
    updateDeps_keysList]

theorem updateDeps_get_not_mem (nv : SMap) {k : String} (hk : ¬k ∈ keysList nv) :
    ∀ deps : JObj, assocGet (updateDeps deps nv) k = assocGet deps k := by
  induction nv with
  | nil =>
      intro deps
      rfl
  | cons e rest ih =>
      intro deps
      rw [keysList_cons, List.mem_cons] at hk
      push_neg at hk
      rw [updateDeps_cons]
      by_cases hs : (assocGet deps e.1).isSome
      · rw [if_pos hs, ih hk.2, assocGet_set_ne]
        exact hk.1
      · rw [if_neg hs, ih hk.2]

theorem updateDeps_noop {nv : SMap} {deps : JObj}
    (h : ∀ e ∈ nv, (assocGet deps e.1).isSome = true →
      assocGet deps e.1 = some (JVal.str e.2)) :
    updateDeps deps nv = deps := by
  induction nv with
  | nil => rfl
  | cons e rest ih =>
      rw [updateDeps_cons]
      by_cases hs : (assocGet deps e.1).isSome
      · rw [if_pos hs, assocSet_of_get_eq (h e (List.mem_cons_self _ _) hs)]
        exact ih (fun f hf => h f (List.mem_cons_of_mem _ hf))
      · rw [if_neg hs]
        exact ih (fun f hf => h f (List.mem_cons_of_mem _ hf))

theorem updateDeps_applied {nv : SMap} (hnd : (keysList nv).Nodup) :
    ∀ {deps : JObj}, ∀ e ∈ nv, (assocGet deps e.1).isSome = true →
      assocGet (updateDeps deps nv) e.1 = some (JVal.str e.2) := by
  induction nv with
  | nil =>
      intro deps e he
      simp at he
  | cons f rest ih =>
      intro deps e he hs
      rw [keysList_cons, List.nodup_cons] at hnd
      rw [updateDeps_cons]
      rcases List.mem_cons.mp he with h1 | h1
      · subst h1
        rw [if_pos hs, updateDeps_get_not_mem rest hnd.1, assocGet_set_self]
      · have hs' : (assocGet
            (if (assocGet deps f.1).isSome then assocSet deps f.1 (JVal.str f.2) else deps)
            e.1).isSome = true := by
          by_cases hf : (assocGet deps f.1).isSome
          · rw [if_pos hf]
            by_cases hef : e.1 = f.1
            · rw [hef, assocGet_set_self]
              rfl
            · rw [assocGet_set_ne _ _ _ _ hef]
              exact hs
          · rw [if_neg hf]
            exact hs
        exact ih hnd.2 e h1 hs'

theorem updateDeps_idem {nv : SMap} (hnd : (keysList nv).Nodup) (deps : JObj) :
    updateDeps (updateDeps deps nv) nv = updateDeps deps nv := by
  apply updateDeps_noop
  intro e he hs
  have hs0 : (assocGet deps e.1).isSome = true := by
    rw [← updateDeps_isSome nv]
    exact hs
  exact updateDeps_applied hnd e he hs0

/-! ### `updateField` lemmas -/

theorem updateField_eq_of_get_none {pj : JObj} {f : String} (nv : SMap)
    (hg : assocGet pj f = none) : updateField pj f nv = Except.ok pj := by
  unfold updateField
  rw [hg]

theorem updateField_eq_of_get_null {pj : JObj} {f : String} (nv : SMap)
    (hg : assocGet pj f = some JVal.null) : updateField pj f nv = Except.ok pj := by
  unfold updateField
  rw [hg]

theorem updateField_eq_of_get_obj {pj : JObj} {f : String} {d : JObj} (nv : SMap)
    (hg : assocGet pj f = some (JVal.obj d)) :
    updateField pj f nv = Except.ok (assocSet pj f (JVal.obj (updateDeps d nv))) := by
  unfold updateField
  rw [hg]

theorem updateField_ok_elim {pj : JObj} {f : String} {nv : SMap} {pj' : JObj}
    (h : updateField pj f nv = Except.ok pj') :
    pj' = pj ∨
      ∃ d, assocGet pj f = some (JVal.obj d) ∧
        pj' = assocSet pj f (JVal.obj (updateDeps d nv)) := by
  unfold updateField at h
  cases hg : assocGet pj f with
  | none =>
      rw [hg] at h
      exact Or.inl (Except.ok.inj h).symm
  | some v =>
      cases v with
      | null =>
          rw [hg] at h
          exact Or.inl (Except.ok.inj h).symm
      | obj d =>
          rw [hg] at h
          exact Or.inr ⟨d, rfl, (Except.ok.inj h).symm⟩
      | str a =>
          rw [hg] at h
          by_cases hnv : nv.isEmpty = true
          · rw [if_pos hnv] at h
            exact Or.inl (Except.ok.inj h).symm
          · rw [if_neg hnv] at h
            exact absurd h (by simp)
      | num a =>
          rw [hg] at h
          by_cases hnv : nv.isEmpty = true
          · rw [if_pos hnv] at h
            exact Or.inl (Except.ok.inj h).symm
          · rw [if_neg hnv] at h
            exact absurd h (by simp)
      | bool a =>
          rw [hg] at h
          by_cases hnv : nv.isEmpty = true
          · rw [if_pos hnv] at h
            exact Or.inl (Except.ok.inj h).symm
          · rw [if_neg hnv] at h
            exact absurd h (by simp)

theorem updateField_ok_get_ne {pj : JObj} {f : String} {nv : SMap} {pj' : JObj}
    (h : updateField pj f nv = Except.ok pj') (k : String) (hk : ¬k = f) :
    assocGet pj' k = assocGet pj k := by
  rcases updateField_ok_elim h with h1 | ⟨d, hd, h1⟩
  · rw [h1]
  · rw [h1]
    exact assocGet_set_ne _ _ _ _ hk

theorem updateField_ok_keysList {pj : JObj} {f : String} {nv : SMap} {pj' : JObj}
    (h : updateField pj f nv = Except.ok pj') : keysList pj' = keysList pj := by
  rcases updateField_ok_elim h with h1 | ⟨d, hd, h1⟩
  · rw [h1]
  · rw [h1, keysList_assocSet, if_pos]
    rw [hd]
    rfl

/-- If a field update succeeded on `pj` and `q` already carries the resulting
field value, updating `q` changes nothing. -/
theorem updateField_stable {pj : JObj} {f : String} {nv : SMap} {pj' q : JObj}
    (hnd : (keysList nv).Nodup)
    (h : updateField pj f nv = Except.ok pj') (hq : assocGet q f = assocGet pj' f) :
    updateField q f nv = Except.ok q := by
  cases hg : assocGet pj f with
  | none =>
      rw [updateField_eq_of_get_none nv hg] at h
      have hq' : assocGet q f = none := by
        rw [hq, ← (Except.ok.inj h), hg]
      exact updateField_eq_of_get_none nv hq'
  | some v =>
      cases v with
      | null =>
          rw [updateField_eq_of_get_null nv hg] at h
          have hq' : assocGet q f = some JVal.null := by
            rw [hq, ← (Except.ok.inj h), hg]
          exact updateField_eq_of_get_null nv hq'
      | obj d =>
          rw [updateField_eq_of_get_obj nv hg] at h
          have hpj' : pj' = assocSet pj f (JVal.obj (updateDeps d nv)) :=
            (Except.ok.inj h).symm
          have hq' : assocGet q f = some (JVal.obj (updateDeps d nv)) := by
            rw [hq, hpj', assocGet_set_self]
          rw [updateField_eq_of_get_obj nv hq', updateDeps_idem hnd,
            assocSet_of_get_eq hq']
      | str a =>
          unfold updateField at h
          rw [hg] at h
          by_cases hnv : nv.isEmpty = true
          · rw [if_pos hnv] at h
            have hq' : assocGet q f = some (JVal.str a) := by
              rw [hq, ← (Except.ok.inj h), hg]
            unfold updateField
            rw [hq', if_pos hnv]
          · rw [if_neg hnv] at h
            exact absurd h (by simp)
      | num a =>
          unfold updateField at h
          rw [hg] at h
          by_cases hnv : nv.isEmpty = true
          · rw [if_pos hnv] at h
            have hq' : assocGet q f = some (JVal.num a) := by
              rw [hq, ← (Except.ok.inj h), hg]
            unfold updateField
            rw [hq', if_pos hnv]
          · rw [if_neg hnv] at h
            exact absurd h (by simp)
      | bool a =>
          unfold updateField at h
          rw [hg] at h
          by_cases hnv : nv.isEmpty = true
          · rw [if_pos hnv] at h
            have hq' : assocGet q f = some (JVal.bool a) := by
              rw [hq, ← (Except.ok.inj h), hg]
            unfold updateField
            rw [hq', if_pos hnv]
          · rw [if_neg hnv] at h
            exact absurd h (by simp)

/-! ### `updatePackageJson` lemmas -/

theorem upj_eq (m : JObj) (nv : SMap) :
    updatePackageJson m nv =
      match updateField (versionBump m nv) "dependencies" nv with
      | Except.error e => Except.error e
      | Except.ok pj2 =>
          match updateField pj2 "devDependencies" nv with
          | Except.error e => Except.error e
          | Except.ok pj3 => Except.ok (pj3, stringifyVal 0 (JVal.obj pj3) ++ "\n") := rfl

theorem versionBump_eq_of_some {m : JObj} {nv : SMap} {v : String}
    (hg : assocGet nv (nameOf m) = some v) :
    versionBump m nv = assocSet m "version" (JVal.str v) := by
  unfold versionBump
  rw [hg]

theorem versionBump_eq_of_none {m : JObj} {nv : SMap}
    (hg : assocGet nv (nameOf m) = none) : versionBump m nv = m := by
  unfold versionBump
  rw [hg]

theorem versionBump_get_ne (m : JObj) (nv : SMap) (k : String) (hk : ¬k = "version") :
    assocGet (versionBump m nv) k = assocGet m k := by
  cases hg : assocGet nv (nameOf m) with
  | none => rw [versionBump_eq_of_none hg]
  | some v =>
      rw [versionBump_eq_of_some hg]
      exact assocGet_set_ne _ _ _ _ hk

theorem versionBump_keysList (m : JObj) (nv : SMap) :
    keysList (versionBump m nv) = keysList m ∨
      keysList (versionBump m nv) = keysList m ++ ["version"] := by
  cases hg : assocGet nv (nameOf m) with
  | none =>
      rw [versionBump_eq_of_none hg]
      exact Or.inl rfl
  | some v =>
      rw [versionBump_eq_of_some hg, keysList_assocSet]
      by_cases hs : (assocGet m "version").isSome
      · rw [if_pos hs]
        exact Or.inl rfl
      · rw [if_neg hs]
        exact Or.inr rfl

theorem upj_ok_elim {m : JObj} {nv : SMap} {m' : JObj} {c : String}
    (h : updatePackageJson m nv = Except.ok (m', c)) :
    ∃ pj2, updateField (versionBump m nv) "dependencies" nv = Except.ok pj2 ∧
      updateField pj2 "devDependencies" nv = Except.ok m' ∧
      c = stringifyVal 0 (JVal.obj m') ++ "\n" := by
  rw [upj_eq] at h
  cases h1 : updateField (versionBump m nv) "dependencies" nv with
  | error e =>
      rw [h1] at h
      have h0 : (Except.error e : Except String (JObj × String)) = Except.ok (m', c) := h
      simp at h0
  | ok pj2 =>
      rw [h1] at h
      have h' : (match updateField pj2 "devDependencies" nv with
          | Except.error e => (Except.error e : Except String (JObj × String))
          | Except.ok pj3 =>
              Except.ok (pj3, stringifyVal 0 (JVal.obj pj3) ++ "\n")) =
          Except.ok (m', c) := h
      cases h2 : updateField pj2 "devDependencies" nv with
      | error e =>
          rw [h2] at h'
          have h0 : (Except.error e : Except String (JObj × String)) = Except.ok (m', c) := h'
          simp at h0
      | ok pj3 =>
          rw [h2] at h'
          have h3 : Except.ok (pj3, stringifyVal 0 (JVal.obj pj3) ++ "\n") =
              (Except.ok (m', c) : Except String (JObj × String)) := h'
          simp only [Except.ok.injEq, Prod.mk.injEq] at h3
          exact ⟨pj2, (by first | exact h1 | rfl), h3.1 ▸ h2, h3.1 ▸ h3.2.symm⟩

theorem upj_frame {m : JObj} {nv : SMap} {m' : JObj} {c : String}
    (h : updatePackageJson m nv = Except.ok (m', c)) (k : String)
    (h1 : ¬k = "version") (h2 : ¬k = "dependencies") (h3 : ¬k = "devDependencies") :
    assocGet m' k = assocGet m k := by
  obtain ⟨pj2, hd, hdd, hc⟩ := upj_ok_elim h
  rw [updateField_ok_get_ne hdd k h3, updateField_ok_get_ne hd k h2,
    versionBump_get_ne m nv k h1]

theorem upj_nameOf {m : JObj} {nv : SMap} {m' : JObj} {c : String}
    (h : updatePackageJson m nv = Except.ok (m', c)) : nameOf m' = nameOf m := by
  unfold nameOf
  rw [upj_frame h "name" (by decide) (by decide) (by decide)]

theorem upj_isPrivatePkg {m : JObj} {nv : SMap} {m' : JObj} {c : String}
    (h : updatePackageJson m nv = Except.ok (m', c)) : isPrivatePkg m' = isPrivatePkg m := by
  unfold isPrivatePkg
  rw [upj_frame h "private" (by decide) (by decide) (by decide)]

theorem upj_keysList_or {m : JObj} {nv : SMap} {m' : JObj} {c : String}
    (h : updatePackageJson m nv = Except.ok (m', c)) :
    keysList m' = keysList m ∨ keysList m' = keysList m ++ ["version"] := by
  obtain ⟨pj2, hd, hdd, hc⟩ := upj_ok_elim h
  rw [updateField_ok_keysList hdd, updateField_ok_keysList hd]
  exact versionBump_keysList m nv

theorem upj_version_set {m : JObj} {nv : SMap} {m' : JObj} {c : String} {v : String}
    (h : updatePackageJson m nv = Except.ok (m', c))
    (hg : assocGet nv (nameOf m) = some v) :
    assocGet m' "version" = some (JVal.str v) := by
  obtain ⟨pj2, hd, hdd, hc⟩ := upj_ok_elim h
  rw [updateField_ok_get_ne hdd "version" (by decide),
    updateField_ok_get_ne hd "version" (by decide), versionBump_eq_of_some hg,
    assocGet_set_self]

theorem upj_version_keep {m : JObj} {nv : SMap} {m' : JObj} {c : String}
    (h : updatePackageJson m nv = Except.ok (m', c))
    (hg : assocGet nv (nameOf m) = none) :
    assocGet m' "version" = assocGet m "version" := by
  obtain ⟨pj2, hd, hdd, hc⟩ := upj_ok_elim h
  rw [updateField_ok_get_ne hdd "version" (by decide),
    updateField_ok_get_ne hd "version" (by decide), versionBump_eq_of_none hg]

theorem upj_dep_obj {m : JObj} {nv : SMap} {m' : JObj} {c : String} {f : String} {d : JObj}
    (h : updatePackageJson m nv = Except.ok (m', c))
    (hf : f = "dependencies" ∨ f = "devDependencies")
    (hg : assocGet m f = some (JVal.obj d)) :
    assocGet m' f = some (JVal.obj (updateDeps d nv)) := by
  obtain ⟨pj2, hd, hdd, hc⟩ := upj_ok_elim h
  have hfv : ¬f = "version" := by
    rcases hf with hf | hf <;> subst hf <;> decide
  have hvb : assocGet (versionBump m nv) f = some (JVal.obj d) := by
    rw [versionBump_get_ne m nv f hfv, hg]
  rcases hf with hf | hf
  · subst hf
    rw [updateField_eq_of_get_obj nv hvb] at hd
    have hpj2 : pj2 = assocSet (versionBump m nv) "dependencies"
        (JVal.obj (updateDeps d nv)) := (Except.ok.inj hd).symm
    rw [updateField_ok_get_ne hdd "dependencies" (by decide), hpj2, assocGet_set_self]
  · subst hf
    have hpj2 : assocGet pj2 "devDependencies" = some (JVal.obj d) := by
      rw [updateField_ok_get_ne hd "devDependencies" (by decide), hvb]
    rw [updateField_eq_of_get_obj nv hpj2] at hdd
    have hm' : m' = assocSet pj2 "devDependencies" (JVal.obj (updateDeps d nv)) :=
      (Except.ok.inj hdd).symm
    rw [hm', assocGet_set_self]

theorem upj_dep_keep {m : JObj} {nv : SMap} {m' : JObj} {c : String} {f : String}
    (h : updatePackageJson m nv = Except.ok (m', c))
    (hf : f = "dependencies" ∨ f = "devDependencies")
    (hg : ∀ d, ¬assocGet m f = some (JVal.obj d)) :
    assocGet m' f = assocGet m f := by
  obtain ⟨pj2, hd, hdd, hc⟩ := upj_ok_elim h
  have hfv : ¬f = "version" := by
    rcases hf with hf | hf <;> subst hf <;> decide
  have hvb : assocGet (versionBump m nv) f = assocGet m f :=
    versionBump_get_ne m nv f hfv
  rcases hf with hf | hf
  · subst hf
    have hpj2 : pj2 = versionBump m nv := by
      rcases updateField_ok_elim hd with h1 | ⟨d0, hd0, h1⟩
      · exact h1
      · exact absurd (hvb ▸ hd0) (hg d0)
    rw [updateField_ok_get_ne hdd "dependencies" (by decide), hpj2, hvb]
  · subst hf
    have hpj2 : assocGet pj2 "devDependencies" = assocGet m "devDependencies" := by
      rw [updateField_ok_get_ne hd "devDependencies" (by decide), hvb]
    have hm' : m' = pj2 := by
      rcases updateField_ok_elim hdd with h1 | ⟨d0, hd0, h1⟩
      · exact h1
      · exact absurd (hpj2 ▸ hd0) (hg d0)
    rw [hm', hpj2]

theorem upj_idem {m : JObj} {nv : SMap} {m' : JObj} {c : String}
    (hnd : (keysList nv).Nodup)
    (h : updatePackageJson m nv = Except.ok (m', c)) :
    updatePackageJson m' nv = Except.ok (m', c) := by
  obtain ⟨pj2, hd, hdd, hc⟩ := upj_ok_elim h
  have hname : nameOf m' = nameOf m := upj_nameOf h
  have hA : versionBump m' nv = m' := by
    cases hsm : assocGet nv (nameOf m) with
    | none =>
        apply versionBump_eq_of_none
        rw [hname, hsm]
    | some v =>
        have hv : assocGet m' "version" = some (JVal.str v) := upj_version_set h hsm
        rw [versionBump_eq_of_some (hname ▸ hsm : assocGet nv (nameOf m') = some v),
          assocSet_of_get_eq hv]
  have hB : updateField m' "dependencies" nv = Except.ok m' :=
    updateField_stable hnd hd (updateField_ok_get_ne hdd "dependencies" (by decide))
  have hC : updateField m' "devDependencies" nv = Except.ok m' :=
    updateField_stable hnd hdd rfl
  rw [upj_eq, hA, hB]
  show (match updateField m' "devDependencies" nv with
      | Except.error e => (Except.error e : Except String (JObj × String))
      | Except.ok pj3 => Except.ok (pj3, stringifyVal 0 (JVal.obj pj3) ++ "\n")) =
    Except.ok (m', c)
  rw [hC, hc]

/-- An `Except` that reports success holds a success value. -/
theorem isOk_elim {ε α : Type} {e : Except ε α} (h : e.isOk = true) : ∃ a, e = Except.ok a := by
  cases e with
  | error x => simp [Except.isOk, Except.toBool] at h
  | ok a => exact ⟨a, rfl⟩

theorem upj_noop {m : JObj} {nv : SMap}
    (hver : ∀ v, assocGet nv (nameOf m) = some v → assocGet m "version" = some (JVal.str v))
    (hdeps : ∀ f, (f = "dependencies" ∨ f = "devDependencies") → ∀ d,
      assocGet m f = some (JVal.obj d) → ∀ e ∈ nv, (assocGet d e.1).isSome = true →
        assocGet d e.1 = some (JVal.str e.2))
    (hok : (updatePackageJson m nv).isOk = true) :
    updatePackageJson m nv = Except.ok (m, stringifyVal 0 (JVal.obj m) ++ "\n") := by
  obtain ⟨⟨m', c⟩, hr⟩ := isOk_elim hok
  obtain ⟨pj2, hd, hdd, hc⟩ := upj_ok_elim hr
  have hA : versionBump m nv = m := by
    cases hsm : assocGet nv (nameOf m) with
    | none => exact versionBump_eq_of_none hsm
    | some v =>
        rw [versionBump_eq_of_some hsm, assocSet_of_get_eq (hver v hsm)]
  rw [hA] at hd
  have hpj2 : pj2 = m := by
    rcases updateField_ok_elim hd with h1 | ⟨d0, hd0, h1⟩
    · exact h1
    · rw [h1, updateDeps_noop (hdeps "dependencies" (Or.inl rfl) d0 hd0),
        assocSet_of_get_eq hd0]
  rw [hpj2] at hdd
  have hm' : m' = m := by
    rcases updateField_ok_elim hdd with h1 | ⟨d0, hd0, h1⟩
    · exact h1
    · rw [h1, updateDeps_noop (hdeps "devDependencies" (Or.inr rfl) d0 hd0),
        assocSet_of_get_eq hd0]
  rw [hm'] at hc
  rw [hr, hm', hc]

/-! ### Registry lemmas -/

theorem getPackages_mem_intro {ms : List (String × JObj)} {path : String} {m : JObj}
    (i r : Bool) (h : (path, m) ∈ ms)
    (h1 : (i || !(isPrivatePkg m)) = true)
    (h2 : (r || !(nameOf m == "react-native")) = true) :
    (⟨nameOf m, path, m⟩ : PackageEntry) ∈ getPackages i r ms := by
  unfold getPackages
  refine List.mem_map.mpr ⟨(path, m), List.mem_filter.mpr ⟨h, ?_⟩, rfl⟩
  simp only []
  rw [Bool.and_eq_true]
  exact ⟨h1, h2⟩

theorem getPackages_mem_elim {ms : List (String × JObj)} {i r : Bool} {p : PackageEntry}
    (h : p ∈ getPackages i r ms) :
    (p.path, p.packageJson) ∈ ms ∧ p.name = nameOf p.packageJson ∧
      (i || !(isPrivatePkg p.packageJson)) = true ∧
      (r || !(nameOf p.packageJson == "react-native")) = true := by
  unfold getPackages at h
  obtain ⟨pm, hmem, heq⟩ := List.mem_map.mp h
  obtain ⟨hms, hcond⟩ := List.mem_filter.mp hmem
  rw [Bool.and_eq_true] at hcond
  subst heq
  exact ⟨hms, rfl, hcond.1, hcond.2⟩

theorem getPackages_paths_map (i r : Bool) (ms : List (String × JObj)) :
    (getPackages i r ms).map PackageEntry.path =
      (ms.filter (fun pm =>
        (i || !(isPrivatePkg pm.2)) && (r || !(nameOf pm.2 == "react-native")))).map
        Prod.fst := by
  unfold getPackages
  rw [List.map_map]
  rfl

theorem getPackages_paths_sublist (i r : Bool) (ms : List (String × JObj)) :
    List.Sublist ((getPackages i r ms).map PackageEntry.path) (keysList ms) := by
  rw [getPackages_paths_map]
  exact List.Sublist.map Prod.fst (List.filter_sublist ms)

theorem packagesToUpdateOf_mem_elim {pkgs : List PackageEntry} {p : PackageEntry}
    (h : p ∈ packagesToUpdateOf pkgs) :
    p ∈ pkgs ∧ (p.name == "react-native") = false := by
  unfold packagesToUpdateOf at h
  have h1 := List.mem_filter.mp h
  rw [Bool.not_eq_true'] at h1
  exact h1

theorem packagesToUpdateOf_mem_intro {pkgs : List PackageEntry} {p : PackageEntry}
    (h : p ∈ pkgs) (hn : (p.name == "react-native") = false) :
    p ∈ packagesToUpdateOf pkgs := by
  unfold packagesToUpdateOf
  refine List.mem_filter.mpr ⟨h, ?_⟩
  rw [Bool.not_eq_true']
  exact hn

theorem toUpdate_paths_nodup {ms : List (String × JObj)} (i r : Bool)
    (hnd : (keysList ms).Nodup) :
    ((packagesToUpdateOf (getPackages i r ms)).map PackageEntry.path).Nodup := by
  have h1 : List.Sublist (packagesToUpdateOf (getPackages i r ms)) (getPackages i r ms) :=
    List.filter_sublist _
  have h2 := List.Sublist.map PackageEntry.path h1
  exact List.Nodup.sublist (List.Sublist.trans h2 (getPackages_paths_sublist i r ms)) hnd

theorem toUpdate_mem_ms {ms : List (String × JObj)} {i r : Bool} {p : PackageEntry}
    (h : p ∈ packagesToUpdateOf (getPackages i r ms)) :
    (p.path, p.packageJson) ∈ ms ∧ p.name = nameOf p.packageJson ∧
      (p.name == "react-native") = false := by
  obtain ⟨h1, h2⟩ := packagesToUpdateOf_mem_elim h
  obtain ⟨h3, h4, _, _⟩ := getPackages_mem_elim h1
  exact ⟨h3, h4, h2⟩

/-! ### Signature lemmas: what registry reads depend on -/

theorem keysList_map_snd {α β : Type} (f : String → α → β) (ms : List (String × α)) :
    keysList (ms.map (fun pm => (pm.1, f pm.1 pm.2))) = keysList ms := by
  unfold keysList
  rw [List.map_map]
  rfl

theorem sig_ext {ms1 ms2 : List (String × JObj)}
    (hk : keysList ms1 = keysList ms2) (hnd : (keysList ms1).Nodup)
    (h : ∀ k, (assocGet ms1 k).map (fun m => (nameOf m, isPrivatePkg m)) =
      (assocGet ms2 k).map (fun m => (nameOf m, isPrivatePkg m))) :
    ms1.map (fun pm => (pm.1, nameOf pm.2, isPrivatePkg pm.2)) =
      ms2.map (fun pm => (pm.1, nameOf pm.2, isPrivatePkg pm.2)) := by
  apply assocExt
  · rw [keysList_map_snd (fun _ m => (nameOf m, isPrivatePkg m)) ms1,
      keysList_map_snd (fun _ m => (nameOf m, isPrivatePkg m)) ms2]
    exact hk
  · rw [keysList_map_snd (fun _ m => (nameOf m, isPrivatePkg m)) ms1]
    exact hnd
  · intro k
    rw [assocGet_map (fun _ m => (nameOf m, isPrivatePkg m)) ms1 k,
      assocGet_map (fun _ m => (nameOf m, isPrivatePkg m)) ms2 k]
    exact h k

theorem getPackages_sig_congr {ms1 ms2 : List (String × JObj)} (i r : Bool)
    (h : ms1.map (fun pm => (pm.1, nameOf pm.2, isPrivatePkg pm.2)) =
      ms2.map (fun pm => (pm.1, nameOf pm.2, isPrivatePkg pm.2))) :
    (getPackages i r ms1).map (fun p => (p.name, p.path)) =
      (getPackages i r ms2).map (fun p => (p.name, p.path)) := by
  induction ms1 generalizing ms2 with
  | nil =>
      cases ms2 with
      | nil => rfl
      | cons e2 r2 => simp at h
  | cons e1 r1 ih =>
      cases ms2 with
      | nil => simp at h
      | cons e2 r2 =>
          rw [List.map_cons, List.map_cons] at h
          have h1 : (e1.1, nameOf e1.2, isPrivatePkg e1.2) =
              (e2.1, nameOf e2.2, isPrivatePkg e2.2) := (List.cons.injEq _ _ _ _ ▸ h).1
          have h2 : r1.map (fun pm => (pm.1, nameOf pm.2, isPrivatePkg pm.2)) =
              r2.map (fun pm => (pm.1, nameOf pm.2, isPrivatePkg pm.2)) :=
            (List.cons.injEq _ _ _ _ ▸ h).2
          have hpath : e1.1 = e2.1 := congrArg (fun x : String × String × Bool => x.1) h1
          have hname : nameOf e1.2 = nameOf e2.2 :=
            congrArg (fun x : String × String × Bool => x.2.1) h1
          have hpriv : isPrivatePkg e1.2 = isPrivatePkg e2.2 :=
            congrArg (fun x : String × String × Bool => x.2.2) h1
          unfold getPackages
          rw [List.filter_cons, List.filter_cons]
          have hcond : ((i || !(isPrivatePkg e1.2)) && (r || !(nameOf e1.2 == "react-native")))
              = ((i || !(isPrivatePkg e2.2)) && (r || !(nameOf e2.2 == "react-native"))) := by
            rw [hname, hpriv]
          by_cases hq : ((i || !(isPrivatePkg e1.2)) &&
              (r || !(nameOf e1.2 == "react-native"))) = true
          · rw [if_pos hq, if_pos (hcond ▸ hq), List.map_cons, List.map_cons,
              List.map_cons, List.map_cons]
            have hh := ih h2
            unfold getPackages at hh
            rw [hh]
            have hhead : ((nameOf e1.2, e1.1) : String × String) = (nameOf e2.2, e2.1) := by
              rw [hname, hpath]
            rw [show ((⟨nameOf e1.2, e1.1, e1.2⟩ : PackageEntry).name,
                (⟨nameOf e1.2, e1.1, e1.2⟩ : PackageEntry).path) = (nameOf e1.2, e1.1) from rfl,
              show ((⟨nameOf e2.2, e2.1, e2.2⟩ : PackageEntry).name,
                (⟨nameOf e2.2, e2.1, e2.2⟩ : PackageEntry).path) = (nameOf e2.2, e2.1) from rfl,
              hhead]
          · rw [if_neg hq, if_neg (hcond ▸ hq)]
            have hh := ih h2
            unfold getPackages at hh
            exact hh

/-! ### `rewriteAll` and `rewriteOne` lemmas -/

theorem rewriteAll_cons (nv : SMap) (ms : List (String × JObj)) (p : PackageEntry)
    (rest : List PackageEntry) :
    rewriteAll nv ms (p :: rest) =
      match updatePackageJson p.packageJson nv with
      | Except.ok mc => rewriteAll nv (assocSet ms p.path mc.1) rest
      | Except.error _ => rewriteAll nv ms rest := rfl

theorem rewriteOne_eq_of_ok {nv : SMap} {m m' : JObj} {c : String}
    (h : updatePackageJson m nv = Except.ok (m', c)) : rewriteOne nv m = m' := by
  unfold rewriteOne
  rw [h]

theorem rewriteOne_eq_of_error {nv : SMap} {m : JObj} {e : String}
    (h : updatePackageJson m nv = Except.error e) : rewriteOne nv m = m := by
  unfold rewriteOne
  rw [h]

theorem rewriteOne_sig (nv : SMap) (m : JObj) :
    nameOf (rewriteOne nv m) = nameOf m ∧ isPrivatePkg (rewriteOne nv m) = isPrivatePkg m := by
  cases hu : updatePackageJson m nv with
  | ok mc =>
      have hu' : updatePackageJson m nv = Except.ok (mc.1, mc.2) := by rw [hu]
      rw [rewriteOne_eq_of_ok hu']
      exact ⟨upj_nameOf hu', upj_isPrivatePkg hu'⟩
  | error e =>
      rw [rewriteOne_eq_of_error hu]
      exact ⟨rfl, rfl⟩

theorem rewriteOne_idem {nv : SMap} (hnd : (keysList nv).Nodup) (m : JObj) :
    rewriteOne nv (rewriteOne nv m) = rewriteOne nv m := by
  cases hu : updatePackageJson m nv with
  | ok mc =>
      have hu' : updatePackageJson m nv = Except.ok (mc.1, mc.2) := by rw [hu]
      rw [rewriteOne_eq_of_ok hu', rewriteOne_eq_of_ok (upj_idem hnd hu')]
  | error e =>
      rw [rewriteOne_eq_of_error hu, rewriteOne_eq_of_error hu]

theorem keysList_rewriteAll (nv : SMap) :
    ∀ (todo : List PackageEntry) (ms : List (String × JObj)),
      (∀ p ∈ todo, p.path ∈ keysList ms) →
      keysList (rewriteAll nv ms todo) = keysList ms := by
  intro todo
  induction todo with
  | nil =>
      intro ms _
      rfl
  | cons p rest ih =>
      intro ms hmem
      rw [rewriteAll_cons]
      cases hu : updatePackageJson p.packageJson nv with
      | ok mc =>
          have hkeys : keysList (assocSet ms p.path mc.1) = keysList ms := by
            rw [keysList_assocSet,
              if_pos ((mem_keysList_iff_isSome ms p.path).mp
                (hmem p (List.mem_cons_self _ _)))]
          rw [ih (assocSet ms p.path mc.1)
            (fun q hq => hkeys ▸ hmem q (List.mem_cons_of_mem _ hq)), hkeys]
      | error e =>
          exact ih ms (fun q hq => hmem q (List.mem_cons_of_mem _ hq))

theorem assocGet_rewriteAll (nv : SMap) :
    ∀ (todo : List PackageEntry) (ms : List (String × JObj)),
      (keysList ms).Nodup →
      (todo.map PackageEntry.path).Nodup →
      (∀ p ∈ todo, (p.path, p.packageJson) ∈ ms) →
      ∀ k, assocGet (rewriteAll nv ms todo) k =
        match todo.find? (fun p => p.path == k) with
        | some p => some (rewriteOne nv p.packageJson)
        | none => assocGet ms k := by
  intro todo
  induction todo with
  | nil =>
      intro ms _ _ _ k
      rfl
  | cons p rest ih =>
      intro ms hnd hpaths hmem k
      rw [List.map_cons, List.nodup_cons] at hpaths
      have hget : assocGet ms p.path = some p.packageJson :=
        assocGet_eq_of_mem_nodup hnd (hmem p (List.mem_cons_self _ _))
      have hrestfind : p.path = k → rest.find? (fun q => q.path == k) = none := by
        intro hk
        rw [List.find?_eq_none]
        intro q hq
        rw [Bool.not_eq_true, beq_eq_false_iff_ne]
        intro hqk
        exact hpaths.1 (hk ▸ hqk ▸ List.mem_map.mpr ⟨q, hq, rfl⟩)
      rw [rewriteAll_cons]
      cases hu : updatePackageJson p.packageJson nv with
      | ok mc =>
          have hnd' : (keysList (assocSet ms p.path mc.1)).Nodup :=
            keysList_nodup_assocSet _ _ hnd
          have hmem' : ∀ q ∈ rest, (q.path, q.packageJson) ∈ assocSet ms p.path mc.1 := by
            intro q hq
            refine mem_assocSet_of_ne _ (hmem q (List.mem_cons_of_mem _ hq)) ?_
            intro hqp
            exact hpaths.1 (hqp ▸ List.mem_map.mpr ⟨q, hq, rfl⟩)
          rw [ih (assocSet ms p.path mc.1) hnd' hpaths.2 hmem' k]
          by_cases hk : p.path = k
          · have hbeq : (p.path == k) = true := beq_iff_eq.mpr hk
            have hfind : (p :: rest).find? (fun q => q.path == k) = some p := by
              rw [List.find?_cons, hbeq]
            rw [hfind, hrestfind hk]
            show assocGet (assocSet ms p.path mc.1) k = some (rewriteOne nv p.packageJson)
            rw [← hk, assocGet_set_self, rewriteOne_eq_of_ok (show _ = Except.ok (mc.1, mc.2)
              from by rw [hu])]
          · have hbeq : (p.path == k) = false := beq_eq_false_iff_ne.mpr hk
            have hfind : (p :: rest).find? (fun q => q.path == k) =
                rest.find? (fun q => q.path == k) := by
              rw [List.find?_cons, hbeq]
            rw [hfind]
            cases hf : rest.find? (fun q => q.path == k) with
            | some q => rfl
            | none =>
                show assocGet (assocSet ms p.path mc.1) k = assocGet ms k
                exact assocGet_set_ne _ _ _ _ (fun hh => hk hh.symm)
      | error e =>
          rw [ih ms hnd hpaths.2 (fun q hq => hmem q (List.mem_cons_of_mem _ hq)) k]
          by_cases hk : p.path = k
          · have hbeq : (p.path == k) = true := beq_iff_eq.mpr hk
            have hfind : (p :: rest).find? (fun q => q.path == k) = some p := by
              rw [List.find?_cons, hbeq]
            rw [hfind, hrestfind hk]
            show assocGet ms k = some (rewriteOne nv p.packageJson)
            rw [rewriteOne_eq_of_error hu, ← hk, hget]
          · have hbeq : (p.path == k) = false := beq_eq_false_iff_ne.mpr hk
            have hfind : (p :: rest).find? (fun q => q.path == k) =
                rest.find? (fun q => q.path == k) := by
              rw [List.find?_cons, hbeq]
            rw [hfind]

/-! ### Mapping-construction lemmas -/

theorem newPackageVersionsOf_values {pkgs : List PackageEntry} {version : String}
    {k v : String} (h : assocGet (newPackageVersionsOf pkgs version) k = some v) :
    v = version := by
  have hm := fromEntries_get_mem h
  obtain ⟨p, _, heq⟩ := List.mem_map.mp hm
  exact (congrArg Prod.snd heq).symm

theorem newPackageVersionsOf_mem {pkgs : List PackageEntry} {version : String}
    {p : PackageEntry} (h : p ∈ pkgs) :
    assocGet (newPackageVersionsOf pkgs version) p.name = some version := by
  have hk : p.name ∈ keysList (newPackageVersionsOf pkgs version) := by
    apply fromEntries_mem_keys
    rw [List.map_map]
    exact List.mem_map.mpr ⟨p, h, rfl⟩
  rw [mem_keysList_iff_isSome] at hk
  obtain ⟨v, hv⟩ := Option.isSome_iff_exists.mp hk
  rw [hv, newPackageVersionsOf_values hv]

theorem newPackageVersionsOf_nodup (pkgs : List PackageEntry) (version : String) :
    (keysList (newPackageVersionsOf pkgs version)).Nodup :=
  fromEntries_nodup _

theorem newPackageVersionsOf_congr {pkgs1 pkgs2 : List PackageEntry}
    (h : pkgs1.map (fun p => (p.name, p.path)) = pkgs2.map (fun p => (p.name, p.path)))
    (version : String) :
    newPackageVersionsOf pkgs1 version = newPackageVersionsOf pkgs2 version := by
  unfold newPackageVersionsOf
  have h' : pkgs1.map PackageEntry.name = pkgs2.map PackageEntry.name := by
    have hh := congrArg (List.map (fun q : String × String => q.1)) h
    rw [List.map_map, List.map_map] at hh
    exact hh
  have e1 : pkgs1.map (fun p => (p.name, version)) =
      (pkgs1.map PackageEntry.name).map (fun n => (n, version)) := by
    rw [List.map_map]
    rfl
  have e2 : pkgs2.map (fun p => (p.name, version)) =
      (pkgs2.map PackageEntry.name).map (fun n => (n, version)) := by
    rw [List.map_map]
    rfl
  rw [e1, e2, h']

/-! ### One-run characterization and idempotence -/

theorem setVersion_run_eq (psM : String → SMap → JObj) (psN : String → SMap → String)
    (v : String) (skip : Bool) (disk : Disk) :
    setVersion psM psN v skip disk =
      ⟨⟨runManifests psM v (if skip then "1000.0.0" else v) disk.manifests,
          psN (if skip then "1000.0.0" else v) (runMapping disk.manifests v)⟩,
        (if skip then "1000.0.0" else v), runMapping disk.manifests v,
        packagesToUpdateOf (getPackages false true disk.manifests)⟩ := rfl

theorem runManifests_idem (psM : String → SMap → JObj) (v pv : String)
    {ms : List (String × JObj)} {m0 : JObj}
    (hnd : (keysList ms).Nodup)
    (hrn : assocGet ms rnManifestPath = some m0)
    (hname : nameOf m0 = "react-native")
    (hpub : isPrivatePkg m0 = false)
    (hps : ∀ (w : String) (mp : SMap),
      nameOf (psM w mp) = "react-native" ∧ isPrivatePkg (psM w mp) = false) :
    runMapping (runManifests psM v pv ms) v = runMapping ms v ∧
      runManifests psM v pv (runManifests psM v pv ms) = runManifests psM v pv ms := by
  have hrnsome : (assocGet ms rnManifestPath).isSome = true := by
    rw [hrn]
    rfl
  set nv1 := runMapping ms v with hnv1
  set todo1 := packagesToUpdateOf (getPackages false true ms) with htodo1
  set ms1 := runManifests psM v pv ms with hms1
  have hnvnd : (keysList nv1).Nodup := newPackageVersionsOf_nodup _ v
  have hms1eq : ms1 = rewriteAll nv1 (assocSet ms rnManifestPath (psM pv nv1)) todo1 := rfl
  have htodo1nd : (todo1.map PackageEntry.path).Nodup := toUpdate_paths_nodup false true hnd
  have htodo1ms : ∀ p ∈ todo1, (p.path, p.packageJson) ∈ ms :=
    fun p hp => (toUpdate_mem_ms hp).1
  have htodo1rn : ∀ p ∈ todo1, ¬p.path = rnManifestPath := by
    intro p hp hpath
    obtain ⟨hmem, hnm, hflag⟩ := toUpdate_mem_ms hp
    have hg : assocGet ms rnManifestPath = some p.packageJson := by
      rw [← hpath]
      exact assocGet_eq_of_mem_nodup hnd hmem
    have hpj : p.packageJson = m0 := Option.some.inj (hg.symm.trans hrn)
    rw [hnm, hpj, hname] at hflag
    simp at hflag
  have htodo1ms' : ∀ p ∈ todo1,
      (p.path, p.packageJson) ∈ assocSet ms rnManifestPath (psM pv nv1) :=
    fun p hp => mem_assocSet_of_ne _ (htodo1ms p hp) (htodo1rn p hp)
  have hkeys0' : keysList (assocSet ms rnManifestPath (psM pv nv1)) = keysList ms := by
    rw [keysList_assocSet, if_pos hrnsome]
  have hnd0' : (keysList (assocSet ms rnManifestPath (psM pv nv1))).Nodup := by
    rw [hkeys0']
    exact hnd
  have hchar : ∀ k, assocGet ms1 k =
      match todo1.find? (fun p => p.path == k) with
      | some p => some (rewriteOne nv1 p.packageJson)
      | none => assocGet (assocSet ms rnManifestPath (psM pv nv1)) k := by
    intro k
    rw [hms1eq]
    exact assocGet_rewriteAll nv1 todo1 _ hnd0' htodo1nd htodo1ms' k
  have hfindrn : todo1.find? (fun p => p.path == rnManifestPath) = none := by
    rw [List.find?_eq_none]
    intro p hp
    rw [Bool.not_eq_true, beq_eq_false_iff_ne]
    exact htodo1rn p hp
  have hms1rn : assocGet ms1 rnManifestPath = some (psM pv nv1) := by
    rw [hchar rnManifestPath, hfindrn]
    show assocGet (assocSet ms rnManifestPath (psM pv nv1)) rnManifestPath = some (psM pv nv1)
    exact assocGet_set_self _ _ _
  have hkeys1 : keysList ms1 = keysList ms := by
    rw [hms1eq, keysList_rewriteAll nv1 todo1 (assocSet ms rnManifestPath (psM pv nv1))
      (fun p hp => List.mem_map.mpr ⟨(p.path, p.packageJson), htodo1ms' p hp, rfl⟩)]
    exact hkeys0'
  have hnd1 : (keysList ms1).Nodup := by
    rw [hkeys1]
    exact hnd
  have hsig : ms1.map (fun pm => (pm.1, nameOf pm.2, isPrivatePkg pm.2)) =
      ms.map (fun pm => (pm.1, nameOf pm.2, isPrivatePkg pm.2)) := by
    apply sig_ext hkeys1 hnd1
    intro k
    rw [hchar k]
    cases hf : todo1.find? (fun p => p.path == k) with
    | some p =>
        have hpb := List.find?_some hf
        have hpk : p.path = k := beq_iff_eq.mp hpb
        have hpmem : p ∈ todo1 := List.mem_of_find?_eq_some hf
        have hmsk : assocGet ms k = some p.packageJson := by
          rw [← hpk]
          exact assocGet_eq_of_mem_nodup hnd (htodo1ms p hpmem)
        rw [hmsk]
        show some (nameOf (rewriteOne nv1 p.packageJson),
            isPrivatePkg (rewriteOne nv1 p.packageJson)) =
          some (nameOf p.packageJson, isPrivatePkg p.packageJson)
        rw [(rewriteOne_sig nv1 p.packageJson).1, (rewriteOne_sig nv1 p.packageJson).2]
    | none =>
        show (assocGet (assocSet ms rnManifestPath (psM pv nv1)) k).map
            (fun m => (nameOf m, isPrivatePkg m)) =
          (assocGet ms k).map (fun m => (nameOf m, isPrivatePkg m))
        by_cases hk : k = rnManifestPath
        · subst hk
          rw [assocGet_set_self, hrn]
          show some (nameOf (psM pv nv1), isPrivatePkg (psM pv nv1)) =
            some (nameOf m0, isPrivatePkg m0)
          rw [(hps pv nv1).1, (hps pv nv1).2, hname, hpub]
        · rw [assocGet_set_ne _ _ _ _ hk]
  have hnv2 : runMapping ms1 v = nv1 := by
    rw [hnv1]
    show newPackageVersionsOf (getPackages false true ms1) v =
      newPackageVersionsOf (getPackages false true ms) v
    exact newPackageVersionsOf_congr (getPackages_sig_congr false true hsig) v
  set todo2 := packagesToUpdateOf (getPackages false true ms1) with htodo2
  have hms2eq : runManifests psM v pv ms1 =
      rewriteAll nv1 (assocSet ms1 rnManifestPath (psM pv nv1)) todo2 := by
    show rewriteAll (runMapping ms1 v)
        (assocSet ms1 rnManifestPath (psM pv (runMapping ms1 v)))
        (packagesToUpdateOf (getPackages false true ms1)) = _
    rw [hnv2]
  have hsetter2 : assocSet ms1 rnManifestPath (psM pv nv1) = ms1 :=
    assocSet_of_get_eq hms1rn
  have htodo2nd : (todo2.map PackageEntry.path).Nodup := toUpdate_paths_nodup false true hnd1
  have htodo2ms : ∀ p ∈ todo2, (p.path, p.packageJson) ∈ ms1 :=
    fun p hp => (toUpdate_mem_ms hp).1
  have htodo2rn : ∀ p ∈ todo2, ¬p.path = rnManifestPath := by
    intro p hp hpath
    obtain ⟨hmem, hnm, hflag⟩ := toUpdate_mem_ms hp
    have hg : assocGet ms1 rnManifestPath = some p.packageJson := by
      rw [← hpath]
      exact assocGet_eq_of_mem_nodup hnd1 hmem
    have hpj : p.packageJson = psM pv nv1 := Option.some.inj (hg.symm.trans hms1rn)
    rw [hnm, hpj, (hps pv nv1).1] at hflag
    simp at hflag
  have hchar2 : ∀ k, assocGet (runManifests psM v pv ms1) k =
      match todo2.find? (fun p => p.path == k) with
      | some p => some (rewriteOne nv1 p.packageJson)
      | none => assocGet ms1 k := by
    intro k
    rw [hms2eq, hsetter2]
    exact assocGet_rewriteAll nv1 todo2 ms1 hnd1 htodo2nd htodo2ms k
  have hkeys2 : keysList (runManifests psM v pv ms1) = keysList ms1 := by
    rw [hms2eq, hsetter2, keysList_rewriteAll nv1 todo2 ms1
      (fun p hp => List.mem_map.mpr ⟨(p.path, p.packageJson), htodo2ms p hp, rfl⟩)]
  refine ⟨hnv2, assocExt hkeys2 (by rw [hkeys2]; exact hnd1) ?_⟩
  intro k
  rw [hchar2 k]
  cases hf : todo2.find? (fun p => p.path == k) with
  | none => rfl
  | some p =>
      have hpb := List.find?_some hf
      have hpk : p.path = k := beq_iff_eq.mp hpb
      have hpmem : p ∈ todo2 := List.mem_of_find?_eq_some hf
      have hg1 : assocGet ms1 k = some p.packageJson := by
        rw [← hpk]
        exact assocGet_eq_of_mem_nodup hnd1 (htodo2ms p hpmem)
      show some (rewriteOne nv1 p.packageJson) = assocGet ms1 k
      rw [hg1]
      have hval := hchar k
      rw [hg1] at hval
      cases hf1 : todo1.find? (fun q => q.path == k) with
      | some q =>
          rw [hf1] at hval
          have hval' : some p.packageJson = some (rewriteOne nv1 q.packageJson) := hval
          have hq : p.packageJson = rewriteOne nv1 q.packageJson := Option.some.inj hval'
          rw [hq, rewriteOne_idem hnvnd]
      | none =>
          rw [hf1] at hval
          have hval' : some p.packageJson =
              assocGet (assocSet ms rnManifestPath (psM pv nv1)) k := hval
          have hkrn : ¬k = rnManifestPath := fun hkk => htodo2rn p hpmem (hpk.trans hkk)
          rw [assocGet_set_ne _ _ _ _ hkrn] at hval'
          obtain ⟨hp1, hflagp⟩ := packagesToUpdateOf_mem_elim hpmem
          obtain ⟨hmemp, hnmp, hprivp, _⟩ := getPackages_mem_elim hp1
          have hpriv : isPrivatePkg p.packageJson = false := by
            rw [Bool.false_or, Bool.not_eq_true'] at hprivp
            exact hprivp
          have hmem0 : (k, p.packageJson) ∈ ms := assocGet_mem hval'.symm
          have hq0 : (⟨nameOf p.packageJson, k, p.packageJson⟩ : PackageEntry) ∈
              getPackages false true ms := by
            apply getPackages_mem_intro false true hmem0
            · rw [Bool.false_or, Bool.not_eq_true', hpriv]
            · rfl
          have hq0' : (⟨nameOf p.packageJson, k, p.packageJson⟩ : PackageEntry) ∈ todo1 := by
            apply packagesToUpdateOf_mem_intro hq0
            show (nameOf p.packageJson == "react-native") = false
            rw [← hnmp]
            exact hflagp
          rw [List.find?_eq_none] at hf1
          have hcontra := hf1 _ hq0'
          rw [Bool.not_eq_true, beq_eq_false_iff_ne] at hcontra
          exact absurd rfl hcontra

/-! ### Shared helper for key-list preservation modulo `version` -/

theorem upj_keysList_filter {m : JObj} {nv : SMap} {m' : JObj} {c : String}
    (h : updatePackageJson m nv = Except.ok (m', c)) :
    (keysList m').filter (fun s => !(s == "version")) =
      (keysList m).filter (fun s => !(s == "version")) := by
  rcases upj_keysList_or h with h1 | h1
  · rw [h1]
  · rw [h1, List.filter_append,
      show (["version"].filter (fun s => !(s == "version"))) = [] from rfl,
      List.append_nil]

/-! ### Claim theorems -/

/-- C2: after the rewriter runs, for each dependency field present on the
manifest, every key of that field that is also a key of the mapping has its
value equal to the mapping's value for that key. -/
theorem claim_C2_completeness {m : JObj} {nv : SMap} (hnd : (keysList nv).Nodup)
    {m' : JObj} {c : String} (h : updatePackageJson m nv = Except.ok (m', c))
    (f : String) (hf : f = "dependencies" ∨ f = "devDependencies") {d : JObj}
    (hd : assocGet m' f = some (JVal.obj d)) {k v : String}
    (hk : assocGet nv k = some v) (hkd : (assocGet d k).isSome = true) :
    assocGet d k = some (JVal.str v) := by
  by_cases hobj : ∃ d0, assocGet m f = some (JVal.obj d0)
  · obtain ⟨d0, hg⟩ := hobj
    have hd' : assocGet m' f = some (JVal.obj (updateDeps d0 nv)) := upj_dep_obj h hf hg
    have hdeq : d = updateDeps d0 nv := by
      have := Option.some.inj (hd.symm.trans hd')
      exact JVal.obj.inj this
    subst hdeq
    have hs0 : (assocGet d0 k).isSome = true := by
      rw [← updateDeps_isSome nv d0 k]
      exact hkd
    exact updateDeps_applied hnd (k, v) (assocGet_mem hk) hs0
  · push_neg at hobj
    have := upj_dep_keep h hf hobj
    rw [this] at hd
    exact absurd hd (hobj d)

/-- C2 witness: the completeness theorem evaluated on a concrete manifest and
mapping. -/
theorem claim_C2_witness :
    assocGet [("tool-a", JVal.str "0.2.0"), ("left-pad", JVal.str "9.9.9")] "tool-a" =
      some (JVal.str "0.2.0") :=
  claim_C2_completeness (by decide)
    (show updatePackageJson coreManifest coreMapping =
      Except.ok (coreManifestAfter, stringifyVal 0 (JVal.obj coreManifestAfter) ++ "\n")
      from rfl)
    "devDependencies" (Or.inr rfl) rfl rfl rfl

/-- C3: every manifest field other than `version` and the two dependency
fields keeps its value; the key list is preserved except for a possibly
appended `version`; inside a dependency field, the key list is preserved
exactly and unmapped keys keep their values. -/
theorem claim_C3_noninterference {m : JObj} {nv : SMap} {m' : JObj} {c : String}
    (h : updatePackageJson m nv = Except.ok (m', c)) :
    (∀ k, ¬k = "version" → ¬k = "dependencies" → ¬k = "devDependencies" →
      assocGet m' k = assocGet m k) ∧
    ((keysList m').filter (fun s => !(s == "version")) =
      (keysList m).filter (fun s => !(s == "version"))) ∧
    (∀ f, (f = "dependencies" ∨ f = "devDependencies") → ∀ d0,
      assocGet m f = some (JVal.obj d0) →
      ∃ d, assocGet m' f = some (JVal.obj d) ∧ keysList d = keysList d0 ∧
        ∀ k, ¬k ∈ keysList nv → assocGet d k = assocGet d0 k) := by
  refine ⟨fun k h1 h2 h3 => upj_frame h k h1 h2 h3, upj_keysList_filter h, ?_⟩
  intro f hf d0 hg
  exact ⟨updateDeps d0 nv, upj_dep_obj h hf hg, updateDeps_keysList nv d0,
    fun k hk => updateDeps_get_not_mem nv hk d0⟩

/-- C3 witness: non-interference evaluated on a concrete manifest: the `name`
field is untouched. -/
theorem claim_C3_witness :
    assocGet coreManifestAfter "name" = assocGet coreManifest "name" :=
  (claim_C3_noninterference
    (show updatePackageJson coreManifest coreMapping =
      Except.ok (coreManifestAfter, stringifyVal 0 (JVal.obj coreManifestAfter) ++ "\n")
      from rfl)).1
    "name" (by decide) (by decide) (by decide)

/-- C4: after the rewrite, `version` equals the mapping's value for the
manifest's name when that name is mapped, and is unchanged otherwise. -/
theorem claim_C4_version_field {m : JObj} {nv : SMap} {m' : JObj} {c : String}
    (h : updatePackageJson m nv = Except.ok (m', c)) {n : String}
    (hn : assocGet m "name" = some (JVal.str n)) :
    (∀ v, assocGet nv n = some v → assocGet m' "version" = some (JVal.str v)) ∧
    (assocGet nv n = none → assocGet m' "version" = assocGet m "version") := by
  have hname : nameOf m = n := by
    unfold nameOf
    rw [hn]
    rfl
  constructor
  · intro v hv
    exact upj_version_set h (by rw [hname]; exact hv)
  · intro hv
    exact upj_version_keep h (by rw [hname]; exact hv)

/-- C4 witness: the version rule evaluated on a concrete manifest. -/
theorem claim_C4_witness :
    assocGet coreManifestAfter "version" = some (JVal.str "0.2.0") :=
  (claim_C4_version_field
    (show updatePackageJson coreManifest coreMapping =
      Except.ok (coreManifestAfter, stringifyVal 0 (JVal.obj coreManifestAfter) ++ "\n")
      from rfl) rfl).1 "0.2.0" rfl

/-- C5 counterexample: a manifest with no `name` field is still rewritten
successfully — the rewrite does not fail, contradicting the claim that it
returns an error rather than writing the file. -/
theorem claim_C5_counterexample :
    assocGet noNameManifest "name" = none ∧
      (updatePackageJson noNameManifest noNameMapping).isOk = true :=
  ⟨rfl, rfl⟩

/-- C5 (amended): a manifest missing `name` does not make the rewrite fail;
the missing name coerces to the property key `"undefined"`, so as long as the
mapping has no literal `"undefined"` key the version field is left unchanged,
dependency fields are still rewritten, and the file is written. -/
theorem claim_C5_missing_name {m : JObj} {nv : SMap}
    (hname : assocGet m "name" = none)
    (hu : ¬"undefined" ∈ keysList nv)
    (hdeps : ∀ f, (f = "dependencies" ∨ f = "devDependencies") →
      assocGet m f = none ∨ assocGet m f = some JVal.null ∨
        ∃ d, assocGet m f = some (JVal.obj d)) :
    ∃ m' c, updatePackageJson m nv = Except.ok (m', c) ∧
      assocGet m' "version" = assocGet m "version" := by
  have hnm : nameOf m = "undefined" := by
    unfold nameOf
    rw [hname]
    rfl
  have hsm : assocGet nv (nameOf m) = none := by
    rw [hnm, ← Option.not_isSome_iff_eq_none]
    intro hs
    exact hu ((mem_keysList_iff_isSome nv "undefined").mpr hs)
  have hA : versionBump m nv = m := versionBump_eq_of_none hsm
  obtain ⟨pj2, huf1, hpj2dev⟩ : ∃ pj2, updateField m "dependencies" nv = Except.ok pj2 ∧
      assocGet pj2 "devDependencies" = assocGet m "devDependencies" := by
    rcases hdeps "dependencies" (Or.inl rfl) with h1 | h1 | ⟨d1, h1⟩
    · exact ⟨m, updateField_eq_of_get_none nv h1, rfl⟩
    · exact ⟨m, updateField_eq_of_get_null nv h1, rfl⟩
    · exact ⟨_, updateField_eq_of_get_obj nv h1,
        assocGet_set_ne _ _ _ _ (by decide)⟩
  obtain ⟨m2, huf2⟩ : ∃ m2, updateField pj2 "devDependencies" nv = Except.ok m2 := by
    rcases hdeps "devDependencies" (Or.inr rfl) with h1 | h1 | ⟨d1, h1⟩
    · exact ⟨pj2, updateField_eq_of_get_none nv (hpj2dev.trans h1)⟩
    · exact ⟨pj2, updateField_eq_of_get_null nv (hpj2dev.trans h1)⟩
    · exact ⟨_, updateField_eq_of_get_obj nv (hpj2dev.trans h1)⟩
  have hres : updatePackageJson m nv =
      Except.ok (m2, stringifyVal 0 (JVal.obj m2) ++ "\n") := by
    rw [upj_eq, hA, huf1]
    show (match updateField pj2 "devDependencies" nv with
        | Except.error e => (Except.error e : Except String (JObj × String))
        | Except.ok pj3 => Except.ok (pj3, stringifyVal 0 (JVal.obj pj3) ++ "\n")) = _
    rw [huf2]
  exact ⟨m2, _, hres, upj_version_keep hres hsm⟩

/-- C5 witness: the amended missing-name behavior on a concrete manifest. -/
theorem claim_C5_witness :
    ∃ m' c, updatePackageJson noNameManifest noNameMapping = Except.ok (m', c) ∧
      assocGet m' "version" = assocGet noNameManifest "version" :=
  claim_C5_missing_name rfl (by decide)
    (by
      intro f hf
      rcases hf with hf | hf
      · subst hf
        exact Or.inr (Or.inr ⟨[("a", JVal.str "0.0.1")], rfl⟩)
      · subst hf
        exact Or.inl rfl)

/-- C7: an absent dependency field stays absent, and no mapping key is ever
added to a dependency field (its key list is unchanged). -/
theorem claim_C7_no_creation {m : JObj} {nv : SMap} {m' : JObj} {c : String}
    (h : updatePackageJson m nv = Except.ok (m', c)) (f : String)
    (hf : f = "dependencies" ∨ f = "devDependencies") :
    (assocGet m f = none → assocGet m' f = none) ∧
    (∀ d0 d, assocGet m f = some (JVal.obj d0) → assocGet m' f = some (JVal.obj d) →
      keysList d = keysList d0) := by
  constructor
  · intro hg
    have hkeep : assocGet m' f = assocGet m f := by
      apply upj_dep_keep h hf
      intro d0 hd0
      rw [hg] at hd0
      exact Option.noConfusion hd0
    rw [hkeep, hg]
  · intro d0 d hg hd
    have hd' : assocGet m' f = some (JVal.obj (updateDeps d0 nv)) := upj_dep_obj h hf hg
    have : d = updateDeps d0 nv := JVal.obj.inj (Option.some.inj (hd.symm.trans hd'))
    rw [this]
    exact updateDeps_keysList nv d0

/-- C7 witness: a manifest with no dependency fields keeps them absent even
though the mapping has keys. -/
theorem claim_C7_witness :
    assocGet [("name", JVal.str "pkg-a"), ("version", JVal.str "2.0.0")] "dependencies" =
      none :=
  (claim_C7_no_creation
    (show updatePackageJson absentDepsManifest mutMapping =
      Except.ok ([("name", JVal.str "pkg-a"), ("version", JVal.str "2.0.0")],
        stringifyVal 0 (JVal.obj [("name", JVal.str "pkg-a"),
          ("version", JVal.str "2.0.0")]) ++ "\n")
      from rfl)
    "dependencies" (Or.inl rfl)).1 rfl

/-- C8 counterexample: the rewriter mutates the caller's manifest object in
place — after a call, the caller's object carries the new version, so it is
not left unchanged as the claim states. -/
theorem claim_C8_counterexample :
    (updatePackageJson mutManifest mutMapping).toOption.map
        (fun mc => assocGet mc.1 "version") = some (some (JVal.str "2.0.0")) ∧
      assocGet mutManifest "version" = some (JVal.str "1.0.0") ∧
      ¬(some (JVal.str "2.0.0") = some (JVal.str "1.0.0")) := by
  refine ⟨rfl, rfl, ?_⟩
  intro hcontra
  have h1 : JVal.str "2.0.0" = JVal.str "1.0.0" := Option.some.inj hcontra
  have h2 : "2.0.0" = "1.0.0" := JVal.str.inj h1
  exact absurd h2 (by decide)

/-- C8 (amended): the rewriter mutates the supplied manifest in place (no deep
copy) and serializes that mutated object: the written content is the 2-space
`JSON.stringify` of the post-call manifest followed by exactly one newline
(the serialization itself ends in `\x7d`), with stable field ordering (the key
list is preserved up to the `version` field). -/
theorem claim_C8_serialization {m : JObj} {nv : SMap} {m' : JObj} {c : String}
    (h : updatePackageJson m nv = Except.ok (m', c)) :
    c = stringifyVal 0 (JVal.obj m') ++ "\n" ∧
    (∃ t, stringifyVal 0 (JVal.obj m') = t ++ "\x7d") ∧
    ((keysList m').filter (fun s => !(s == "version")) =
      (keysList m).filter (fun s => !(s == "version"))) := by
  obtain ⟨pj2, _, _, hc⟩ := upj_ok_elim h
  refine ⟨hc, ?_, upj_keysList_filter h⟩
  cases m' with
  | nil => exact ⟨"\x7b", rfl⟩
  | cons f fs =>
      refine ⟨"\x7b\n" ++ stringifyFields (0 + 2) (f :: fs) ++ "\n" ++ spaces 0, ?_⟩
      simp only [stringifyVal]

/-- C8 witness: the serialization facts evaluated on a concrete manifest. -/
theorem claim_C8_witness :
    ∃ t, stringifyVal 0 (JVal.obj mutManifestAfter) = t ++ "\x7d" :=
  (claim_C8_serialization
    (show updatePackageJson mutManifest mutMapping =
      Except.ok (mutManifestAfter, stringifyVal 0 (JVal.obj mutManifestAfter) ++ "\n")
      from rfl)).2.1

/-- C1 counterexample: with the skip flag set, the version-assignment mapping
still sends `react-native` to the literal requested version, not to the
sentinel `1000.0.0` that the claim requires. -/
theorem claim_C1_counterexample :
    assocGet (setVersion samplePsManifest samplePsNative "0.2.0" true
        sampleDisk).platformMappingArg "react-native" = some "0.2.0" ∧
      ¬((some "0.2.0" : Option String) = some "1000.0.0") :=
  ⟨rfl, by decide⟩

/-- C1 (amended): when the skip flag is set, the sentinel `1000.0.0` reaches
the platform setter only as its separate version argument; the mapping maps
every public package name — `react-native` included — to the literal requested
version. -/
theorem claim_C1_sentinel (psM : String → SMap → JObj) (psN : String → SMap → String)
    (v : String) (disk : Disk) :
    (setVersion psM psN v true disk).platformVersionArg = "1000.0.0" ∧
    (∀ k v', assocGet (setVersion psM psN v true disk).platformMappingArg k = some v' →
      v' = v) ∧
    (∀ p ∈ getPackages false true disk.manifests,
      assocGet (setVersion psM psN v true disk).platformMappingArg p.name = some v) := by
  have hm : (setVersion psM psN v true disk).platformMappingArg =
      newPackageVersionsOf (getPackages false true disk.manifests) v := rfl
  refine ⟨rfl, ?_, ?_⟩
  · intro k v' h
    rw [hm] at h
    exact newPackageVersionsOf_values h
  · intro p hp
    rw [hm]
    exact newPackageVersionsOf_mem hp

/-- C1 witness: the amended sentinel rule evaluated on a concrete run. -/
theorem claim_C1_witness :
    (setVersion samplePsManifest samplePsNative "0.2.0" true
        sampleDisk).platformVersionArg = "1000.0.0" ∧ ("0.2.0" : String) = "0.2.0" :=
  ⟨(claim_C1_sentinel samplePsManifest samplePsNative "0.2.0" sampleDisk).1,
    (claim_C1_sentinel samplePsManifest samplePsNative "0.2.0" sampleDisk).2.1
      "react-native" "0.2.0" rfl⟩

/-- C9: the engine never dispatches the distinguished package to the manifest
rewriter: every package in the rewrite batch has a name other than
`react-native`, and on a well-formed disk the location of a manifest named
`react-native` is never among the rewritten paths (that file is written only
by the platform setter). -/
theorem claim_C9_distinguished_exclusion (psM : String → SMap → JObj)
    (psN : String → SMap → String) (v : String) (skip : Bool) (disk : Disk) :
    (∀ p ∈ (setVersion psM psN v skip disk).updatedPackages, ¬p.name = "react-native") ∧
    ((keysList disk.manifests).Nodup →
      ∀ path m0, assocGet disk.manifests path = some m0 → nameOf m0 = "react-native" →
        ¬path ∈ ((setVersion psM psN v skip disk).updatedPackages.map
          PackageEntry.path)) := by
  have hup : (setVersion psM psN v skip disk).updatedPackages =
      packagesToUpdateOf (getPackages false true disk.manifests) := rfl
  constructor
  · intro p hp
    rw [hup] at hp
    exact beq_eq_false_iff_ne.mp (packagesToUpdateOf_mem_elim hp).2
  · intro hnd path m0 hget hname hmem
    rw [hup] at hmem
    obtain ⟨p, hp, hpath⟩ := List.mem_map.mp hmem
    obtain ⟨hmem2, hnm, hflag⟩ := toUpdate_mem_ms hp
    have hg : assocGet disk.manifests path = some p.packageJson := by
      rw [← hpath]
      exact assocGet_eq_of_mem_nodup hnd hmem2
    have hpj : p.packageJson = m0 := Option.some.inj (hg.symm.trans hget)
    rw [hnm, hpj, hname] at hflag
    simp at hflag

/-- C9 witness: on a concrete run, the distinguished package's path is not
among the rewritten paths. -/
theorem claim_C9_witness :
    ¬"packages/react-native" ∈
      ((setVersion samplePsManifest samplePsNative "0.2.0" false
        sampleDisk).updatedPackages.map PackageEntry.path) :=
  (claim_C9_distinguished_exclusion samplePsManifest samplePsNative "0.2.0" false
    sampleDisk).2 (by decide) "packages/react-native" rnSampleManifest rfl rfl

/-- C10: the mapping handed to the platform setter — the same one driving
every manifest rewrite — is the constant mapping sending each public package
name, `react-native` included, to the literal requested version, independent
of the skip flag; the flag only selects the version argument of the platform
setter. -/
theorem claim_C10_constant_mapping (psM : String → SMap → JObj)
    (psN : String → SMap → String) (v : String) (skip : Bool) (disk : Disk) :
    (setVersion psM psN v skip disk).platformMappingArg =
      newPackageVersionsOf (getPackages false true disk.manifests) v ∧
    (setVersion psM psN v true disk).platformMappingArg =
      (setVersion psM psN v false disk).platformMappingArg ∧
    (∀ p ∈ getPackages false true disk.manifests,
      assocGet (setVersion psM psN v skip disk).platformMappingArg p.name = some v) ∧
    (∀ k v', assocGet (setVersion psM psN v skip disk).platformMappingArg k = some v' →
      v' = v) ∧
    (setVersion psM psN v skip disk).platformVersionArg =
      (if skip then "1000.0.0" else v) ∧
    (setVersion psM psN v skip disk).disk.manifests =
      rewriteAll (setVersion psM psN v skip disk).platformMappingArg
        (assocSet disk.manifests rnManifestPath
          (psM (setVersion psM psN v skip disk).platformVersionArg
            (setVersion psM psN v skip disk).platformMappingArg))
        ((setVersion psM psN v skip disk).updatedPackages) := by
  have hm : (setVersion psM psN v skip disk).platformMappingArg =
      newPackageVersionsOf (getPackages false true disk.manifests) v := rfl
  refine ⟨rfl, rfl, ?_, ?_, rfl, rfl⟩
  · intro p hp
    rw [hm]
    exact newPackageVersionsOf_mem hp
  · intro k v' h
    rw [hm] at h
    exact newPackageVersionsOf_values h

/-- C10 witness: on a concrete run with the skip flag set, the mapping still
sends the distinguished package to the requested version. -/
theorem claim_C10_witness :
    assocGet (setVersion samplePsManifest samplePsNative "0.2.0" true
      sampleDisk).platformMappingArg "react-native" = some "0.2.0" :=
  (claim_C10_constant_mapping samplePsManifest samplePsNative "0.2.0" true sampleDisk).2.2.1
    ⟨nameOf rnSampleManifest, "packages/react-native", rnSampleManifest⟩
    (getPackages_mem_intro false true (List.mem_cons_self _ _) (by decide) (by decide))

/-- C6: applying the run twice yields the same on-disk state as applying it
once — under the spec-modelled collaborators, for a disk with unique paths
carrying a public distinguished package, and a platform setter whose manifest
output is well formed; moreover rewriting a manifest whose values already
match the mapping writes back exactly the serialization of the unchanged
manifest. -/
theorem claim_C6_idempotence :
    (∀ (psM : String → SMap → JObj) (psN : String → SMap → String) (v : String)
      (skip : Bool) (disk : Disk) (m0 : JObj),
      (keysList disk.manifests).Nodup →
      assocGet disk.manifests rnManifestPath = some m0 →
      nameOf m0 = "react-native" →
      isPrivatePkg m0 = false →
      (∀ (w : String) (mp : SMap),
        nameOf (psM w mp) = "react-native" ∧ isPrivatePkg (psM w mp) = false) →
      (setVersion psM psN v skip (setVersion psM psN v skip disk).disk).disk =
        (setVersion psM psN v skip disk).disk) ∧
    (∀ (m : JObj) (nv : SMap),
      (∀ v, assocGet nv (nameOf m) = some v → assocGet m "version" = some (JVal.str v)) →
      (∀ f, (f = "dependencies" ∨ f = "devDependencies") → ∀ d,
        assocGet m f = some (JVal.obj d) → ∀ e ∈ nv, (assocGet d e.1).isSome = true →
          assocGet d e.1 = some (JVal.str e.2)) →
      (updatePackageJson m nv).isOk = true →
      updatePackageJson m nv = Except.ok (m, stringifyVal 0 (JVal.obj m) ++ "\n")) := by
  constructor
  · intro psM psN v skip disk m0 hnd hrn hname hpub hps
    obtain ⟨hmap, hman⟩ := runManifests_idem psM v (if skip then "1000.0.0" else v)
      hnd hrn hname hpub hps
    show (⟨runManifests psM v (if skip then "1000.0.0" else v)
        (runManifests psM v (if skip then "1000.0.0" else v) disk.manifests),
      psN (if skip then "1000.0.0" else v)
        (runMapping (runManifests psM v (if skip then "1000.0.0" else v)
          disk.manifests) v)⟩ : Disk) =
      ⟨runManifests psM v (if skip then "1000.0.0" else v) disk.manifests,
        psN (if skip then "1000.0.0" else v) (runMapping disk.manifests v)⟩
    rw [hman, hmap]
  · intro m nv hver hdeps hok
    exact upj_noop hver hdeps hok

/-- C6 witness: idempotence on a concrete disk, and the concrete no-op
rewrite. -/
theorem claim_C6_witness :
    (setVersion samplePsManifest samplePsNative "0.2.0" true
        (setVersion samplePsManifest samplePsNative "0.2.0" true sampleDisk).disk).disk =
      (setVersion samplePsManifest samplePsNative "0.2.0" true sampleDisk).disk ∧
    updatePackageJson noopManifest noopMapping =
      Except.ok (noopManifest, stringifyVal 0 (JVal.obj noopManifest) ++ "\n") := by
  constructor
  · exact claim_C6_idempotence.1 samplePsManifest samplePsNative "0.2.0" true sampleDisk
      rnSampleManifest (by decide) rfl rfl rfl (fun w mp => ⟨rfl, rfl⟩)
  · apply claim_C6_idempotence.2
    · intro v' h
      have h' : some "0.2.0" = some v' := h
      rw [← Option.some.inj h']
      rfl
    · intro f hf d hd
      rcases hf with hf | hf
      · subst hf
        have hd' : some (JVal.obj [("x", JVal.str "0.2.0")]) = some (JVal.obj d) := hd
        have hdd : d = [("x", JVal.str "0.2.0")] := (JVal.obj.inj (Option.some.inj hd')).symm
        subst hdd
        intro e he hs
        rcases List.mem_cons.mp he with h1 | h1
        · subst h1
          exact absurd hs (by decide)
        · rcases List.mem_cons.mp h1 with h2 | h2
          · subst h2
            rfl
          · exact absurd h2 (List.not_mem_nil e)
      · subst hf
        have hd' : (none : Option JVal) = some (JVal.obj d) := hd
        exact Option.noConfusion hd'
    · rfl

end SetVersionSpec
